import Mathlib

/-!
Verification development for the quack-protobuf wire-format codec.

The Rust sources (src/reader.rs, src/writer.rs) are embedded shallowly:

* byte buffers are lists of naturals (each element is a u8, i.e. < 256;
  theorems that depend on byte values carry that bound as a hypothesis);
* a reader method taking `&mut self` becomes a function
  `BytesReader → List Nat → Except Error α × BytesReader`; the state
  component is returned on the error path as well, mirroring the fact
  that a failed Rust call leaves its mutations in place;
* machine-integer arithmetic is expressed over `Nat` with explicit
  masking/`% 2 ^ w` exactly where the Rust types discard bits; signed
  integers (i32/i64) are represented by their two's-complement bit
  pattern, with an explicit interpretation function where a claim talks
  about signed values.
-/

namespace Quack

/-- Error taxonomy of the crate (src/errors.rs, as used by reader/writer). -/
inductive Error where
  | UnexpectedEndOfBuffer
  | Varint
  | Utf8
  | Deprecated (kind : String)
  | UnknownWireType (t : Nat)
  | Map (t : Nat)
  deriving DecidableEq, Repr

/-- Reader cursor: `BytesReader { start, end }` from src/reader.rs
(the field `end` is a Lean keyword, hence `end_`). -/
structure BytesReader where
  start : Nat
  end_ : Nat
  deriving DecidableEq, Repr

/-- BytesReader::from_bytes. -/
def from_bytes (bytes : List Nat) : BytesReader :=
  { start := 0, end_ := bytes.length }

/-- BytesReader::len (remaining bytes of the current range). -/
def BytesReader.len (r : BytesReader) : Nat := r.end_ - r.start

/-- BytesReader::is_eof. -/
def BytesReader.is_eof (r : BytesReader) : Bool := r.start == r.end_

/-- BytesReader::read_to_end. -/
def BytesReader.read_to_end (r : BytesReader) : BytesReader :=
  { r with start := r.end_ }

/-- Sequencing of fallible reader steps: the Rust `?` operator on a
`Result` returned from a method that has already mutated `self`. -/
def rbind {α β : Type} (x : Except Error α × BytesReader)
    (f : α → BytesReader → Except Error β × BytesReader) :
    Except Error β × BytesReader :=
  match x with
  | (Except.ok a, r) => f a r
  | (Except.error e, r) => (Except.error e, r)

/-- BytesReader::read_u8: `bytes.get(self.start)` is a bounds check
against the whole buffer (not against `self.end`). -/
def read_u8 (r : BytesReader) (bytes : List Nat) : Except Error Nat × BytesReader :=
  match bytes[r.start]? with
  | some b => (Except.ok b, { r with start := r.start + 1 })
  | none => (Except.error Error.UnexpectedEndOfBuffer, r)

/-- BytesReader::read_varint32, with the source's unrolled structure:
up to five payload bytes accumulated into a 32-bit register (the fifth
masked to its low 4 bits), then up to five continuation bytes discarded,
then `Error::Varint`. -/
def read_varint32 (r : BytesReader) (bytes : List Nat) : Except Error Nat × BytesReader :=
  rbind (read_u8 r bytes) fun b0 r =>
  if b0 &&& 0x80 = 0 then (Except.ok b0, r) else
  rbind (read_u8 r bytes) fun b1 r =>
  let v1 := (b0 &&& 0x7f) ||| ((b1 &&& 0x7f) <<< 7)
  if b1 &&& 0x80 = 0 then (Except.ok v1, r) else
  rbind (read_u8 r bytes) fun b2 r =>
  let v2 := v1 ||| ((b2 &&& 0x7f) <<< 14)
  if b2 &&& 0x80 = 0 then (Except.ok v2, r) else
  rbind (read_u8 r bytes) fun b3 r =>
  let v3 := v2 ||| ((b3 &&& 0x7f) <<< 21)
  if b3 &&& 0x80 = 0 then (Except.ok v3, r) else
  rbind (read_u8 r bytes) fun b4 r =>
  let v4 := v3 ||| ((b4 &&& 0xf) <<< 28)
  if b4 &&& 0x80 = 0 then (Except.ok v4, r) else
  rbind (read_u8 r bytes) fun b5 r =>
  if b5 &&& 0x80 = 0 then (Except.ok v4, r) else
  rbind (read_u8 r bytes) fun b6 r =>
  if b6 &&& 0x80 = 0 then (Except.ok v4, r) else
  rbind (read_u8 r bytes) fun b7 r =>
  if b7 &&& 0x80 = 0 then (Except.ok v4, r) else
  rbind (read_u8 r bytes) fun b8 r =>
  if b8 &&& 0x80 = 0 then (Except.ok v4, r) else
  rbind (read_u8 r bytes) fun b9 r =>
  if b9 &&& 0x80 = 0 then (Except.ok v4, r) else
  (Except.error Error.Varint, r)

/-- BytesReader::read_varint64: three 32-bit registers r0 (28 bits),
r1 (28 bits), r2 (up to 15 bits); the tenth byte is OR-ed in unmasked
and the final u64 combination wraps, hence the `% 2 ^ 64` on the last
return only (the other returns cannot overflow a u64). -/
def read_varint64 (r : BytesReader) (bytes : List Nat) : Except Error Nat × BytesReader :=
  rbind (read_u8 r bytes) fun b0 r =>
  if b0 &&& 0x80 = 0 then (Except.ok b0, r) else
  rbind (read_u8 r bytes) fun b1 r =>
  let p1 := (b0 &&& 0x7f) ||| ((b1 &&& 0x7f) <<< 7)
  if b1 &&& 0x80 = 0 then (Except.ok p1, r) else
  rbind (read_u8 r bytes) fun b2 r =>
  let p2 := p1 ||| ((b2 &&& 0x7f) <<< 14)
  if b2 &&& 0x80 = 0 then (Except.ok p2, r) else
  rbind (read_u8 r bytes) fun b3 r =>
  let p3 := p2 ||| ((b3 &&& 0x7f) <<< 21)
  if b3 &&& 0x80 = 0 then (Except.ok p3, r) else
  rbind (read_u8 r bytes) fun b4 r =>
  let q1 := b4 &&& 0x7f
  if b4 &&& 0x80 = 0 then (Except.ok (p3 ||| (q1 <<< 28)), r) else
  rbind (read_u8 r bytes) fun b5 r =>
  let q2 := q1 ||| ((b5 &&& 0x7f) <<< 7)
  if b5 &&& 0x80 = 0 then (Except.ok (p3 ||| (q2 <<< 28)), r) else
  rbind (read_u8 r bytes) fun b6 r =>
  let q3 := q2 ||| ((b6 &&& 0x7f) <<< 14)
  if b6 &&& 0x80 = 0 then (Except.ok (p3 ||| (q3 <<< 28)), r) else
  rbind (read_u8 r bytes) fun b7 r =>
  let q4 := q3 ||| ((b7 &&& 0x7f) <<< 21)
  if b7 &&& 0x80 = 0 then (Except.ok (p3 ||| (q4 <<< 28)), r) else
  rbind (read_u8 r bytes) fun b8 r =>
  let s1 := b8 &&& 0x7f
  if b8 &&& 0x80 = 0 then (Except.ok (p3 ||| (q4 <<< 28) ||| (s1 <<< 56)), r) else
  rbind (read_u8 r bytes) fun b9 r =>
  let s2 := s1 ||| (b9 <<< 7)
  if b9 &&& 0x80 = 0 then
    (Except.ok ((p3 ||| (q4 <<< 28) ||| (s2 <<< 56)) % 2 ^ 64), r)
  else
  (Except.error Error.Varint, r)

/-- BytesReader::read_fixed (the generic slice fetch shared by
read_fixed32/64, read_sfixed32/64, read_float, read_double):
`bytes.get(self.start .. self.start + len)` is again a bounds check
against the whole buffer, not against `self.end`. -/
def read_fixed_slice (r : BytesReader) (bytes : List Nat) (len : Nat) :
    Except Error (List Nat) × BytesReader :=
  if r.start + len ≤ bytes.length then
    (Except.ok ((bytes.drop r.start).take len), { r with start := r.start + len })
  else (Except.error Error.UnexpectedEndOfBuffer, r)

/-- Little-endian value of a byte list (byteorder's LE read). -/
def le_read (l : List Nat) : Nat :=
  l.foldr (fun b acc => b + acc * 256) 0

/-- BytesReader::read_fixed32. -/
def read_fixed32 (r : BytesReader) (bytes : List Nat) : Except Error Nat × BytesReader :=
  rbind (read_fixed_slice r bytes 4) fun l r => (Except.ok (le_read l), r)

/-- BytesReader::read_fixed64. -/
def read_fixed64 (r : BytesReader) (bytes : List Nat) : Except Error Nat × BytesReader :=
  rbind (read_fixed_slice r bytes 8) fun l r => (Except.ok (le_read l), r)

/-- BytesReader::read_len: narrow `end` to `start + len` (unchecked!),
run the inner reader, then set `start := end` and restore the saved
`end`.  On an inner error the `?` operator propagates with the narrowed
state left in place. -/
def read_len {α : Type} (r : BytesReader) (bytes : List Nat)
    (read : BytesReader → List Nat → Except Error α × BytesReader) (len : Nat) :
    Except Error α × BytesReader :=
  match read { r with end_ := r.start + len } bytes with
  | (Except.ok v, r₂) => (Except.ok v, { start := r₂.end_, end_ := r.end_ })
  | (Except.error e, r₂) => (Except.error e, r₂)

/-- BytesReader::read_len_varint. -/
def read_len_varint {α : Type} (r : BytesReader) (bytes : List Nat)
    (read : BytesReader → List Nat → Except Error α × BytesReader) :
    Except Error α × BytesReader :=
  match read_varint32 r bytes with
  | (Except.ok len, r₁) => read_len r₁ bytes read len
  | (Except.error e, r₁) => (Except.error e, r₁)

/-- BytesReader::read_bytes: length-delimited borrow of the sub-slice
`bytes[start..end]` of the narrowed scope. -/
def read_bytes (r : BytesReader) (bytes : List Nat) :
    Except Error (List Nat) × BytesReader :=
  read_len_varint r bytes (fun r' b =>
    if r'.start ≤ r'.end_ ∧ r'.end_ ≤ b.length then
      (Except.ok ((b.drop r'.start).take (r'.end_ - r'.start)), r')
    else (Except.error Error.UnexpectedEndOfBuffer, r'))

/-- Loop body of BytesReader::read_map.  The source's `while !r.is_eof()`
is modelled with explicit fuel; read_map supplies `bytes.length + 1`,
which is enough for every execution in which the supplied key/value
decoders advance the cursor (as all decoders of this crate do), since
each iteration then consumes at least one byte of the buffer.  Rust's
`K::default()` / `V::default()` appear as the explicit arguments k, v. -/
def read_map_loop {K V : Type}
    (read_key : BytesReader → List Nat → Except Error K × BytesReader)
    (read_val : BytesReader → List Nat → Except Error V × BytesReader) :
    Nat → K → V → BytesReader → List Nat → Except Error (K × V) × BytesReader
  | 0, _, _, r, _ => (Except.error Error.UnexpectedEndOfBuffer, r)
  | fuel + 1, k, v, r, bytes =>
    if r.is_eof then (Except.ok (k, v), r)
    else
      rbind (read_u8 r bytes) fun t r =>
        if t >>> 3 = 1 then
          rbind (read_key r bytes) fun k' r =>
            read_map_loop read_key read_val fuel k' v r bytes
        else if t >>> 3 = 2 then
          rbind (read_val r bytes) fun v' r =>
            read_map_loop read_key read_val fuel k v' r bytes
        else (Except.error (Error.Map (t >>> 3)), r)

/-- BytesReader::read_map: a length-delimited scope around the entry
loop above. -/
def read_map {K V : Type} (r : BytesReader) (bytes : List Nat) (k0 : K) (v0 : V)
    (read_key : BytesReader → List Nat → Except Error K × BytesReader)
    (read_val : BytesReader → List Nat → Except Error V × BytesReader) :
    Except Error (K × V) × BytesReader :=
  read_len_varint r bytes (fun r' b =>
    read_map_loop read_key read_val (b.length + 1) k0 v0 r' b)

/-- Shared tail of BytesReader::read_unknown: skip `offset` bytes after
checking `self.end - self.start < offset` (the only reader-side check
made against the scoped `end`). -/
def skip_off (r : BytesReader) (offset : Nat) : Except Error Unit × BytesReader :=
  if r.end_ - r.start < offset then (Except.error Error.Varint, r)
  else (Except.ok (), { r with start := r.start + offset })

/-- BytesReader::read_unknown.  The `usize::try_from` on the decoded
length cannot fail on a 64-bit target and is omitted. -/
def read_unknown (r : BytesReader) (bytes : List Nat) (tag_value : Nat) :
    Except Error Unit × BytesReader :=
  if tag_value &&& 0x7 = 0 then
    rbind (read_varint64 r bytes) fun _ r => (Except.ok (), r)
  else if tag_value &&& 0x7 = 1 then skip_off r 8
  else if tag_value &&& 0x7 = 5 then skip_off r 4
  else if tag_value &&& 0x7 = 2 then
    rbind (read_varint64 r bytes) fun l r => skip_off r l
  else if tag_value &&& 0x7 = 3 then (Except.error (Error.Deprecated ("group")), r)
  else if tag_value &&& 0x7 = 4 then (Except.error (Error.Deprecated ("group")), r)
  else (Except.error (Error.UnknownWireType (tag_value &&& 0x7)), r)

/-- Zig-zag decode used by BytesReader::read_sint32, over the u32 bit
pattern: `((n >> 1) as i32) ^ -((n & 1) as i32)`. -/
def zigzag_dec32 (m : Nat) : Nat :=
  (m >>> 1) ^^^ (if m &&& 1 = 0 then 0 else 2 ^ 32 - 1)

/-- BytesReader::read_sint32 (result as i32 bit pattern). -/
def read_sint32 (r : BytesReader) (bytes : List Nat) : Except Error Nat × BytesReader :=
  rbind (read_varint32 r bytes) fun n r => (Except.ok (zigzag_dec32 n), r)

/-- Zig-zag decode used by BytesReader::read_sint64, over the u64 bit
pattern. -/
def zigzag_dec64 (m : Nat) : Nat :=
  (m >>> 1) ^^^ (if m &&& 1 = 0 then 0 else 2 ^ 64 - 1)

/-- BytesReader::read_sint64 (result as i64 bit pattern). -/
def read_sint64 (r : BytesReader) (bytes : List Nat) : Except Error Nat × BytesReader :=
  rbind (read_varint64 r bytes) fun n r => (Except.ok (zigzag_dec64 n), r)

/-- Signed interpretation of an i32 bit pattern. -/
def i32val (n : Nat) : Int :=
  if n < 2 ^ 31 then (n : Int) else (n : Int) - 2 ^ 32

/- ------------------------------------------------------------------ -/
/- Writer (src/writer.rs), specialised to the BytesWriter backend.     -/
/- ------------------------------------------------------------------ -/

/-- BytesWriter { buf, cursor }. -/
structure BytesWriter where
  buf : List Nat
  cursor : Nat
  deriving DecidableEq, Repr

/-- Little-endian byte decomposition (byteorder's LE write of an n-byte
unsigned value). -/
def le_bytes : Nat → Nat → List Nat
  | 0, _ => []
  | n + 1, x => (x % 256) :: le_bytes n (x / 256)

/-- Splice `mid` into `l` at position `c` (what an LE write into
`&mut buf[c..]` does when `mid.length` bytes fit). -/
def splice (l : List Nat) (c : Nat) (mid : List Nat) : List Nat :=
  l.take c ++ mid ++ l.drop (c + mid.length)

/-- WriterBackend::pb_write_u8 for BytesWriter. -/
def pb_write_u8 (w : BytesWriter) (x : Nat) : Except Error Unit × BytesWriter :=
  if w.buf.length - w.cursor < 1 then (Except.error Error.UnexpectedEndOfBuffer, w)
  else (Except.ok (), { buf := w.buf.set w.cursor x, cursor := w.cursor + 1 })

/-- WriterBackend::pb_write_u32 for BytesWriter. -/
def pb_write_u32 (w : BytesWriter) (x : Nat) : Except Error Unit × BytesWriter :=
  if w.buf.length - w.cursor < 4 then (Except.error Error.UnexpectedEndOfBuffer, w)
  else (Except.ok (), { buf := splice w.buf w.cursor (le_bytes 4 x), cursor := w.cursor + 4 })

/-- WriterBackend::pb_write_i32 for BytesWriter (i32 passed as an Int,
stored as its two's-complement little-endian bytes). -/
def pb_write_i32 (w : BytesWriter) (x : Int) : Except Error Unit × BytesWriter :=
  if w.buf.length - w.cursor < 4 then (Except.error Error.UnexpectedEndOfBuffer, w)
  else (Except.ok (),
    { buf := splice w.buf w.cursor (le_bytes 4 (x % 2 ^ 32).toNat), cursor := w.cursor + 4 })

/-- WriterBackend::pb_write_f32 for BytesWriter (the f32 is given by its
IEEE-754 bit pattern; LE::write_f32 stores exactly those four bytes). -/
def pb_write_f32 (w : BytesWriter) (x : Nat) : Except Error Unit × BytesWriter :=
  if w.buf.length - w.cursor < 4 then (Except.error Error.UnexpectedEndOfBuffer, w)
  else (Except.ok (), { buf := splice w.buf w.cursor (le_bytes 4 x), cursor := w.cursor + 4 })

/-- WriterBackend::pb_write_u64 for BytesWriter. -/
def pb_write_u64 (w : BytesWriter) (x : Nat) : Except Error Unit × BytesWriter :=
  if w.buf.length - w.cursor < 8 then (Except.error Error.UnexpectedEndOfBuffer, w)
  else (Except.ok (), { buf := splice w.buf w.cursor (le_bytes 8 x), cursor := w.cursor + 8 })

/-- WriterBackend::pb_write_i64 for BytesWriter. -/
def pb_write_i64 (w : BytesWriter) (x : Int) : Except Error Unit × BytesWriter :=
  if w.buf.length - w.cursor < 8 then (Except.error Error.UnexpectedEndOfBuffer, w)
  else (Except.ok (),
    { buf := splice w.buf w.cursor (le_bytes 8 (x % 2 ^ 64).toNat), cursor := w.cursor + 8 })

/-- WriterBackend::pb_write_f64 for BytesWriter (f64 as its bit pattern). -/
def pb_write_f64 (w : BytesWriter) (x : Nat) : Except Error Unit × BytesWriter :=
  if w.buf.length - w.cursor < 8 then (Except.error Error.UnexpectedEndOfBuffer, w)
  else (Except.ok (), { buf := splice w.buf w.cursor (le_bytes 8 x), cursor := w.cursor + 8 })

/-- WriterBackend::pb_write_all for BytesWriter. -/
def pb_write_all (w : BytesWriter) (xs : List Nat) : Except Error Unit × BytesWriter :=
  if w.buf.length - w.cursor < xs.length then (Except.error Error.UnexpectedEndOfBuffer, w)
  else (Except.ok (), { buf := splice w.buf w.cursor xs, cursor := w.cursor + xs.length })

/-- Writer::write_varint (the Writer struct is a trivial wrapper around
its backend; we inline the BytesWriter backend). -/
def write_varint (w : BytesWriter) (v : Nat) : Except Error Unit × BytesWriter :=
  if 0x7f < v then
    match pb_write_u8 w ((v &&& 0x7f) ||| 0x80) with
    | (Except.ok _, w') => write_varint w' (v >>> 7)
    | (Except.error e, w') => (Except.error e, w')
  else pb_write_u8 w v
termination_by v
decreasing_by
  rw [Nat.shiftRight_eq_div_pow]
  omega

/-- The byte sequence write_varint emits for a value v (reference
encoding used to state the writer lemmas). -/
def varint_bytes (v : Nat) : List Nat :=
  if 0x7f < v then ((v &&& 0x7f) ||| 0x80) :: varint_bytes (v >>> 7) else [v]
termination_by v
decreasing_by
  rw [Nat.shiftRight_eq_div_pow]
  omega

/-- Zig-zag encode of Writer::write_sint32 over the i32 bit pattern n:
`(v << 1) ^ (v >> 31)` with i32 wrapping shl and arithmetic shr. -/
def zigzag_enc32 (n : Nat) : Nat :=
  ((n <<< 1) % 2 ^ 32) ^^^ (if n < 2 ^ 31 then 0 else 2 ^ 32 - 1)

/-- The `as u64` cast of an i32 bit pattern: sign extension. -/
def sext32_u64 (z : Nat) : Nat :=
  if z < 2 ^ 31 then z else z + (2 ^ 64 - 2 ^ 32)

/-- Writer::write_sint32: `self.write_varint(((v << 1) ^ (v >> 31)) as u64)`. -/
def write_sint32 (w : BytesWriter) (n : Nat) : Except Error Unit × BytesWriter :=
  write_varint w (sext32_u64 (zigzag_enc32 n))

/-- Zig-zag encode of Writer::write_sint64 over the i64 bit pattern
(`as u64` on an i64 is the identity on patterns). -/
def zigzag_enc64 (n : Nat) : Nat :=
  ((n <<< 1) % 2 ^ 64) ^^^ (if n < 2 ^ 63 then 0 else 2 ^ 64 - 1)

/-- Writer::write_sint64. -/
def write_sint64 (w : BytesWriter) (n : Nat) : Except Error Unit × BytesWriter :=
  write_varint w (zigzag_enc64 n)

/- ------------------------------------------------------------------ -/
/- Reference decoders used to state the varint characterisations.      -/
/- ------------------------------------------------------------------ -/

/-- Reference varint scan: from position p with `fuel` bytes allowed,
byte counter i and accumulator acc, return the untruncated
mathematical value of the varint together with the number of bytes
consumed.  Fuel exhaustion is the 10-byte limit (`Error::Varint`). -/
def varint_full_aux (bytes : List Nat) : Nat → Nat → Nat → Nat → Except Error Nat × Nat
  | _, 0, i, _ => (Except.error Error.Varint, i)
  | p, fuel + 1, i, acc =>
    match bytes[p]? with
    | none => (Except.error Error.UnexpectedEndOfBuffer, i)
    | some b =>
      if b &&& 0x80 = 0 then (Except.ok (acc + b * 2 ^ (7 * i)), i + 1)
      else varint_full_aux bytes (p + 1) fuel (i + 1) (acc + (b &&& 0x7f) * 2 ^ (7 * i))

/-- Full (untruncated) varint value and consumed-byte count starting at
position p, with the 10-byte limit. -/
def varint_full (bytes : List Nat) (p : Nat) : Except Error Nat × Nat :=
  varint_full_aux bytes p 10 0 0

/-- Is there a byte with clear continuation bit within the next k
present bytes, starting at position p? -/
def clear_within (bytes : List Nat) : Nat → Nat → Bool
  | _, 0 => false
  | p, k + 1 =>
    match bytes[p]? with
    | none => false
    | some b => if b &&& 0x80 = 0 then true else clear_within bytes (p + 1) k

/- ------------------------------------------------------------------ -/
/- Reachability of reader states (for the cursor-invariant claim).     -/
/- ------------------------------------------------------------------ -/

/-- States reachable from from_bytes by the reader's own operations,
including the states the inner closure of read_len observes.  The
stack records the saved outer `end` bounds of the scopes currently
open (read_len's `cur_end`), innermost first. -/
inductive Reach (bytes : List Nat) : BytesReader → List Nat → Prop where
  | init : Reach bytes (from_bytes bytes) []
  | u8 {r s b r'} : Reach bytes r s →
      read_u8 r bytes = (Except.ok b, r') → Reach bytes r' s
  | var32 {r s v r'} : Reach bytes r s →
      read_varint32 r bytes = (Except.ok v, r') → Reach bytes r' s
  | var64 {r s v r'} : Reach bytes r s →
      read_varint64 r bytes = (Except.ok v, r') → Reach bytes r' s
  | fixed {r s n l r'} : Reach bytes r s → (n = 4 ∨ n = 8) →
      read_fixed_slice r bytes n = (Except.ok l, r') → Reach bytes r' s
  | to_end {r s} : Reach bytes r s → Reach bytes r.read_to_end s
  | enter {r s L r₁} : Reach bytes r s →
      read_varint32 r bytes = (Except.ok L, r₁) →
      Reach bytes { start := r₁.start, end_ := r₁.start + L } (r₁.end_ :: s)
  | exit {r e s} : Reach bytes r (e :: s) →
      Reach bytes { start := r.end_, end_ := e } s

/-- Budget-respecting reachability: same steps as Reach, but every
primitive read must stay inside the current scope (final
start ≤ end), and every scope entry's decoded length must fit the
remaining budget.  This is the discipline the spec's framing story
assumes of callers. -/
inductive ReachB (bytes : List Nat) : BytesReader → List Nat → Prop where
  | init : ReachB bytes (from_bytes bytes) []
  | u8 {r s b r'} : ReachB bytes r s →
      read_u8 r bytes = (Except.ok b, r') → r'.start ≤ r'.end_ → ReachB bytes r' s
  | var32 {r s v r'} : ReachB bytes r s →
      read_varint32 r bytes = (Except.ok v, r') → r'.start ≤ r'.end_ → ReachB bytes r' s
  | var64 {r s v r'} : ReachB bytes r s →
      read_varint64 r bytes = (Except.ok v, r') → r'.start ≤ r'.end_ → ReachB bytes r' s
  | fixed {r s n l r'} : ReachB bytes r s → (n = 4 ∨ n = 8) →
      read_fixed_slice r bytes n = (Except.ok l, r') → r'.start ≤ r'.end_ →
      ReachB bytes r' s
  | to_end {r s} : ReachB bytes r s → ReachB bytes r.read_to_end s
  | enter {r s L r₁} : ReachB bytes r s →
      read_varint32 r bytes = (Except.ok L, r₁) → r₁.start + L ≤ r₁.end_ →
      ReachB bytes { start := r₁.start, end_ := r₁.start + L } (r₁.end_ :: s)
  | exit {r e s} : ReachB bytes r (e :: s) →
      ReachB bytes { start := r.end_, end_ := e } s

end Quack

namespace Quack

set_option maxHeartbeats 4000000
set_option maxRecDepth 8000

theorem vfa_step (bytes : List Nat) (p fuel i acc : Nat) :
    varint_full_aux bytes p (fuel + 1) i acc =
      match bytes[p]? with
      | none => (Except.error Error.UnexpectedEndOfBuffer, i)
      | some b =>
        if b &&& 0x80 = 0 then (Except.ok (acc + b * 2 ^ (7 * i)), i + 1)
        else varint_full_aux bytes (p + 1) fuel (i + 1) (acc + (b &&& 0x7f) * 2 ^ (7 * i)) := rfl

theorem vfa_zero (bytes : List Nat) (p i acc : Nat) :
    varint_full_aux bytes p 0 i acc = (Except.error Error.Varint, i) := rfl

theorem and127 (x : Nat) : x &&& 127 = x % 128 := by
  have h := Nat.and_pow_two_sub_one_eq_mod x 7
  norm_num at h
  exact h

theorem and15 (x : Nat) : x &&& 15 = x % 16 := by
  have h := Nat.and_pow_two_sub_one_eq_mod x 4
  norm_num at h
  exact h

theorem byte_clear : ∀ b : Nat, b < 256 → b &&& 128 = 0 → b < 128 := by decide

theorem or_shl (a b k : Nat) (h : a < 2 ^ k) : a ||| (b <<< k) = a + b * 2 ^ k := by
  rw [Nat.shiftLeft_eq, Nat.or_comm, mul_comm, ← Nat.mul_add_lt_is_or h, Nat.add_comm]

theorem T7 (x b : Nat) : (x % 128) ||| (b <<< 7) = x % 128 + b * 2 ^ 7 :=
  or_shl _ _ _ (by omega)

theorem T14 (x1 x2 b : Nat) :
    (x1 % 128 + x2 % 128 * 2 ^ 7) ||| (b <<< 14) = x1 % 128 + x2 % 128 * 2 ^ 7 + b * 2 ^ 14 :=
  or_shl _ _ _ (by omega)

theorem T21 (x1 x2 x3 b : Nat) :
    (x1 % 128 + x2 % 128 * 2 ^ 7 + x3 % 128 * 2 ^ 14) ||| (b <<< 21) =
      x1 % 128 + x2 % 128 * 2 ^ 7 + x3 % 128 * 2 ^ 14 + b * 2 ^ 21 :=
  or_shl _ _ _ (by omega)

theorem T28 (x1 x2 x3 x4 b : Nat) :
    (x1 % 128 + x2 % 128 * 2 ^ 7 + x3 % 128 * 2 ^ 14 + x4 % 128 * 2 ^ 21) ||| (b <<< 28) =
      x1 % 128 + x2 % 128 * 2 ^ 7 + x3 % 128 * 2 ^ 14 + x4 % 128 * 2 ^ 21 + b * 2 ^ 28 :=
  or_shl _ _ _ (by omega)

theorem read_varint32_full (r : BytesReader) (bytes : List Nat)
    (h : ∀ b ∈ bytes, b < 256) :
    read_varint32 r bytes =
      (match varint_full bytes r.start with
       | (Except.ok v, c) => (Except.ok (v % 2 ^ 32), { r with start := r.start + c })
       | (Except.error e, c) => (Except.error e, { r with start := r.start + c })) := by
  unfold read_varint32 varint_full rbind read_u8
  rw [vfa_step]
  cases hb0 : bytes[r.start]? with
  | none => simp
  | some b0 =>
    have h0 : b0 < 256 := h _ (List.getElem?_mem hb0)
    by_cases hc0 : b0 &&& 128 = 0
    · simp only [hc0, reduceIte]
      simp
      norm_num
      omega
    · simp only [hc0, reduceIte]
      rw [vfa_step]
      cases hb1 : bytes[r.start + 1]? with
      | none => simp
      | some b1 =>
        have h1 : b1 < 256 := h _ (List.getElem?_mem hb1)
        by_cases hc1 : b1 &&& 128 = 0
        · simp only [hc1, reduceIte]
          have hs1 := byte_clear b1 h1 hc1
          simp only [and127, Prod.mk.injEq, Except.ok.injEq, BytesReader.mk.injEq, T7]
          norm_num
          omega
        · simp only [hc1, reduceIte]
          rw [vfa_step]
          cases hb2 : bytes[r.start + 1 + 1]? with
          | none => simp
          | some b2 =>
            have h2 : b2 < 256 := h _ (List.getElem?_mem hb2)
            by_cases hc2 : b2 &&& 128 = 0
            · simp only [hc2, reduceIte]
              have hs2 := byte_clear b2 h2 hc2
              simp only [and127, Prod.mk.injEq, Except.ok.injEq, BytesReader.mk.injEq, T7, T14]
              norm_num
              omega
            · simp only [hc2, reduceIte]
              rw [vfa_step]
              cases hb3 : bytes[r.start + 1 + 1 + 1]? with
              | none => simp
              | some b3 =>
                have h3 : b3 < 256 := h _ (List.getElem?_mem hb3)
                by_cases hc3 : b3 &&& 128 = 0
                · simp only [hc3, reduceIte]
                  have hs3 := byte_clear b3 h3 hc3
                  simp only [and127, Prod.mk.injEq, Except.ok.injEq, BytesReader.mk.injEq,
                    T7, T14, T21]
                  norm_num
                  omega
                · simp only [hc3, reduceIte]
                  rw [vfa_step]
                  cases hb4 : bytes[r.start + 1 + 1 + 1 + 1]? with
                  | none => simp
                  | some b4 =>
                    have h4 : b4 < 256 := h _ (List.getElem?_mem hb4)
                    by_cases hc4 : b4 &&& 128 = 0
                    · simp only [hc4, reduceIte]
                      have hs4 := byte_clear b4 h4 hc4
                      simp only [and127, and15, Prod.mk.injEq, Except.ok.injEq,
                        BytesReader.mk.injEq, T7, T14, T21, T28]
                      norm_num
                      omega
                    · simp only [hc4, reduceIte]
                      rw [vfa_step]
                      cases hb5 : bytes[r.start + 1 + 1 + 1 + 1 + 1]? with
                      | none => simp
                      | some b5 =>
                        have h5 : b5 < 256 := h _ (List.getElem?_mem hb5)
                        by_cases hc5 : b5 &&& 128 = 0
                        · simp only [hc5, reduceIte]
                          simp only [and127, and15, Prod.mk.injEq, Except.ok.injEq,
                            BytesReader.mk.injEq, T7, T14, T21, T28]
                          norm_num
                          omega
                        · simp only [hc5, reduceIte]
                          rw [vfa_step]
                          cases hb6 : bytes[r.start + 1 + 1 + 1 + 1 + 1 + 1]? with
                          | none => simp
                          | some b6 =>
                            have h6 : b6 < 256 := h _ (List.getElem?_mem hb6)
                            by_cases hc6 : b6 &&& 128 = 0
                            · simp only [hc6, reduceIte]
                              simp only [and127, and15, Prod.mk.injEq, Except.ok.injEq,
                                BytesReader.mk.injEq, T7, T14, T21, T28]
                              norm_num
                              omega
                            · simp only [hc6, reduceIte]
                              rw [vfa_step]
                              cases hb7 : bytes[r.start + 1 + 1 + 1 + 1 + 1 + 1 + 1]? with
                              | none => simp
                              | some b7 =>
                                have h7 : b7 < 256 := h _ (List.getElem?_mem hb7)
                                by_cases hc7 : b7 &&& 128 = 0
                                · simp only [hc7, reduceIte]
                                  simp only [and127, and15, Prod.mk.injEq, Except.ok.injEq,
                                    BytesReader.mk.injEq, T7, T14, T21, T28]
                                  norm_num
                                  omega
                                · simp only [hc7, reduceIte]
                                  rw [vfa_step]
                                  cases hb8 : bytes[r.start + 1 + 1 + 1 + 1 + 1 + 1 + 1 + 1]? with
                                  | none => simp
                                  | some b8 =>
                                    have h8 : b8 < 256 := h _ (List.getElem?_mem hb8)
                                    by_cases hc8 : b8 &&& 128 = 0
                                    · simp only [hc8, reduceIte]
                                      simp only [and127, and15, Prod.mk.injEq, Except.ok.injEq,
                                        BytesReader.mk.injEq, T7, T14, T21, T28]
                                      norm_num
                                      omega
                                    · simp only [hc8, reduceIte]
                                      rw [vfa_step]
                                      cases hb9 : bytes[r.start + 1 + 1 + 1 + 1 + 1 + 1 + 1 + 1 + 1]? with
                                      | none => simp
                                      | some b9 =>
                                        have h9 : b9 < 256 := h _ (List.getElem?_mem hb9)
                                        by_cases hc9 : b9 &&& 128 = 0
                                        · simp only [hc9, reduceIte]
                                          simp only [and127, and15, Prod.mk.injEq, Except.ok.injEq,
                                            BytesReader.mk.injEq, T7, T14, T21, T28]
                                          norm_num
                                          omega
                                        · simp only [hc9, reduceIte]
                                          rw [vfa_zero]

end Quack

namespace Quack

theorem T56 (x1 x2 x3 x4 y1 y2 y3 y4 b : Nat) :
    (x1 % 128 + x2 % 128 * 2 ^ 7 + x3 % 128 * 2 ^ 14 + x4 % 128 * 2 ^ 21 +
        (y1 % 128 + y2 % 128 * 2 ^ 7 + y3 % 128 * 2 ^ 14 + y4 % 128 * 2 ^ 21) * 2 ^ 28)
      ||| (b <<< 56) =
      x1 % 128 + x2 % 128 * 2 ^ 7 + x3 % 128 * 2 ^ 14 + x4 % 128 * 2 ^ 21 +
        (y1 % 128 + y2 % 128 * 2 ^ 7 + y3 % 128 * 2 ^ 14 + y4 % 128 * 2 ^ 21) * 2 ^ 28 +
        b * 2 ^ 56 :=
  or_shl _ _ _ (by
    have e1 : y1 % 128 < 128 := Nat.mod_lt _ (by omega)
    have e2 : y2 % 128 < 128 := Nat.mod_lt _ (by omega)
    have e3 : y3 % 128 < 128 := Nat.mod_lt _ (by omega)
    have e4 : y4 % 128 < 128 := Nat.mod_lt _ (by omega)
    have f1 : x1 % 128 < 128 := Nat.mod_lt _ (by omega)
    have f2 : x2 % 128 < 128 := Nat.mod_lt _ (by omega)
    have f3 : x3 % 128 < 128 := Nat.mod_lt _ (by omega)
    have f4 : x4 % 128 < 128 := Nat.mod_lt _ (by omega)
    nlinarith)

end Quack

namespace Quack

theorem read_varint64_full (r : BytesReader) (bytes : List Nat)
    (h : ∀ b ∈ bytes, b < 256) :
    read_varint64 r bytes =
      (match varint_full bytes r.start with
       | (Except.ok v, c) => (Except.ok (v % 2 ^ 64), { r with start := r.start + c })
       | (Except.error e, c) => (Except.error e, { r with start := r.start + c })) := by
  unfold read_varint64 varint_full rbind read_u8
  rw [vfa_step]
  cases hb0 : bytes[r.start]? with
  | none => simp
  | some b0 =>
    have h0 : b0 < 256 := h _ (List.getElem?_mem hb0)
    by_cases hc0 : b0 &&& 128 = 0
    · simp only [hc0, reduceIte]
      simp only [and127, Prod.mk.injEq, Except.ok.injEq, BytesReader.mk.injEq,
        T7, T14, T21, T28, T56]
      norm_num
      omega
    · simp only [hc0, reduceIte]
      rw [vfa_step]
      cases hb1 : bytes[r.start + 1]? with
      | none => simp
      | some b1 =>
        have h1 : b1 < 256 := h _ (List.getElem?_mem hb1)
        by_cases hc1 : b1 &&& 128 = 0
        · simp only [hc1, reduceIte]
          have hs1 := byte_clear b1 h1 hc1
          simp only [and127, Prod.mk.injEq, Except.ok.injEq, BytesReader.mk.injEq,
            T7, T14, T21, T28, T56]
          norm_num
          omega
        · simp only [hc1, reduceIte]
          rw [vfa_step]
          cases hb2 : bytes[r.start + 1 + 1]? with
          | none => simp
          | some b2 =>
            have h2 : b2 < 256 := h _ (List.getElem?_mem hb2)
            by_cases hc2 : b2 &&& 128 = 0
            · simp only [hc2, reduceIte]
              have hs2 := byte_clear b2 h2 hc2
              simp only [and127, Prod.mk.injEq, Except.ok.injEq, BytesReader.mk.injEq,
                T7, T14, T21, T28, T56]
              norm_num
              omega
            · simp only [hc2, reduceIte]
              rw [vfa_step]
              cases hb3 : bytes[r.start + 1 + 1 + 1]? with
              | none => simp
              | some b3 =>
                have h3 : b3 < 256 := h _ (List.getElem?_mem hb3)
                by_cases hc3 : b3 &&& 128 = 0
                · simp only [hc3, reduceIte]
                  have hs3 := byte_clear b3 h3 hc3
                  simp only [and127, Prod.mk.injEq, Except.ok.injEq, BytesReader.mk.injEq,
                    T7, T14, T21, T28, T56]
                  norm_num
                  omega
                · simp only [hc3, reduceIte]
                  rw [vfa_step]
                  cases hb4 : bytes[r.start + 1 + 1 + 1 + 1]? with
                  | none => simp
                  | some b4 =>
                    have h4 : b4 < 256 := h _ (List.getElem?_mem hb4)
                    by_cases hc4 : b4 &&& 128 = 0
                    · simp only [hc4, reduceIte]
                      have hs4 := byte_clear b4 h4 hc4
                      simp only [and127, Prod.mk.injEq, Except.ok.injEq, BytesReader.mk.injEq,
                        T7, T14, T21, T28, T56]
                      norm_num
                      omega
                    · simp only [hc4, reduceIte]
                      rw [vfa_step]
                      cases hb5 : bytes[r.start + 1 + 1 + 1 + 1 + 1]? with
                      | none => simp
                      | some b5 =>
                        have h5 : b5 < 256 := h _ (List.getElem?_mem hb5)
                        by_cases hc5 : b5 &&& 128 = 0
                        · simp only [hc5, reduceIte]
                          have hs5 := byte_clear b5 h5 hc5
                          simp only [and127, Prod.mk.injEq, Except.ok.injEq, BytesReader.mk.injEq,
                            T7, T14, T21, T28, T56]
                          norm_num
                          omega
                        · simp only [hc5, reduceIte]
                          rw [vfa_step]
                          cases hb6 : bytes[r.start + 1 + 1 + 1 + 1 + 1 + 1]? with
                          | none => simp
                          | some b6 =>
                            have h6 : b6 < 256 := h _ (List.getElem?_mem hb6)
                            by_cases hc6 : b6 &&& 128 = 0
                            · simp only [hc6, reduceIte]
                              have hs6 := byte_clear b6 h6 hc6
                              simp only [and127, Prod.mk.injEq, Except.ok.injEq, BytesReader.mk.injEq,
                                T7, T14, T21, T28, T56]
                              norm_num
                              omega
                            · simp only [hc6, reduceIte]
                              rw [vfa_step]
                              cases hb7 : bytes[r.start + 1 + 1 + 1 + 1 + 1 + 1 + 1]? with
                              | none => simp
                              | some b7 =>
                                have h7 : b7 < 256 := h _ (List.getElem?_mem hb7)
                                by_cases hc7 : b7 &&& 128 = 0
                                · simp only [hc7, reduceIte]
                                  have hs7 := byte_clear b7 h7 hc7
                                  simp only [and127, Prod.mk.injEq, Except.ok.injEq, BytesReader.mk.injEq,
                                    T7, T14, T21, T28, T56]
                                  norm_num
                                  omega
                                · simp only [hc7, reduceIte]
                                  rw [vfa_step]
                                  cases hb8 : bytes[r.start + 1 + 1 + 1 + 1 + 1 + 1 + 1 + 1]? with
                                  | none => simp
                                  | some b8 =>
                                    have h8 : b8 < 256 := h _ (List.getElem?_mem hb8)
                                    by_cases hc8 : b8 &&& 128 = 0
                                    · simp only [hc8, reduceIte]
                                      have hs8 := byte_clear b8 h8 hc8
                                      simp only [and127, Prod.mk.injEq, Except.ok.injEq, BytesReader.mk.injEq,
                                        T7, T14, T21, T28, T56]
                                      norm_num
                                      omega
                                    · simp only [hc8, reduceIte]
                                      rw [vfa_step]
                                      cases hb9 : bytes[r.start + 1 + 1 + 1 + 1 + 1 + 1 + 1 + 1 + 1]? with
                                      | none => simp
                                      | some b9 =>
                                        have h9 : b9 < 256 := h _ (List.getElem?_mem hb9)
                                        by_cases hc9 : b9 &&& 128 = 0
                                        · simp only [hc9, reduceIte]
                                          simp only [and127, Prod.mk.injEq, Except.ok.injEq, BytesReader.mk.injEq,
                                            T7, T14, T21, T28, T56]
                                          norm_num
                                          omega
                                        · simp only [hc9, reduceIte]
                                          rw [vfa_zero]

end Quack

namespace Quack

theorem small_and128 : ∀ x : Nat, x < 128 → x &&& 128 = 0 := by decide

theorem cont_and127 (x : Nat) : ((x &&& 127) ||| 128) &&& 127 = x &&& 127 := by
  rw [Nat.and_distrib_right, Nat.and_assoc, show (127 : Nat) &&& 127 = 127 from rfl,
    show (128 : Nat) &&& 127 = 0 from rfl, Nat.or_zero]

theorem cont_and128 (x : Nat) : ((x &&& 127) ||| 128) &&& 128 = 128 := by
  rw [Nat.and_distrib_right, Nat.and_assoc, show (127 : Nat) &&& 128 = 0 from rfl,
    Nat.and_zero, show (128 : Nat) &&& 128 = 128 from rfl, Nat.zero_or]

theorem vb_unfold (v : Nat) :
    varint_bytes v =
      if 0x7f < v then ((v &&& 0x7f) ||| 0x80) :: varint_bytes (v >>> 7) else [v] := by
  rw [varint_bytes]

theorem vb_mem : ∀ v : Nat, ∀ b ∈ varint_bytes v, b < 256 := by
  intro v
  induction v using Nat.strong_induction_on with
  | _ v ih =>
    rw [vb_unfold]
    split
    · intro b hb
      rcases List.mem_cons.mp hb with h1 | h2
      · subst h1
        have h127 : v &&& 127 < 2 ^ 8 := by rw [and127]; omega
        have := Nat.or_lt_two_pow h127 (show 128 < 2 ^ 8 by norm_num)
        simpa using this
      · exact ih (v >>> 7) (by rw [Nat.shiftRight_eq_div_pow]; omega) b h2
    · intro b hb
      simp at hb
      omega

theorem vb_len_le : ∀ k v : Nat, 1 ≤ k → v < 2 ^ (7 * k) → (varint_bytes v).length ≤ k := by
  intro k
  induction k with
  | zero => omega
  | succ k ihk =>
    intro v _ hv
    rw [vb_unfold]
    split
    · rename_i h127
      have hk1 : 1 ≤ k := by
        rcases Nat.eq_zero_or_pos k with h0 | h1
        · subst h0; norm_num at hv; omega
        · exact h1
      have hdiv : v >>> 7 < 2 ^ (7 * k) := by
        rw [Nat.shiftRight_eq_div_pow]
        have : (7 : Nat) * (k + 1) = 7 * k + 7 := by ring
        rw [this, pow_add] at hv
        norm_num at hv ⊢
        omega
      have := ihk (v >>> 7) hk1 hdiv
      simp only [List.length_cons]
      omega
    · simp

theorem vb_len_ge : ∀ k v : Nat, 2 ^ (7 * k) ≤ v → k + 1 ≤ (varint_bytes v).length := by
  intro k
  induction k with
  | zero =>
    intro v _
    rw [vb_unfold]
    split <;> simp
  | succ k ihk =>
    intro v hv
    have h127 : 0x7f < v := by
      have h1 : (2 : Nat) ^ 7 ≤ 2 ^ (7 * (k + 1)) := Nat.pow_le_pow_right (by norm_num) (by omega)
      norm_num at h1
      omega
    rw [vb_unfold, if_pos h127]
    have hdiv : 2 ^ (7 * k) ≤ v >>> 7 := by
      rw [Nat.shiftRight_eq_div_pow]
      have e : (7 : Nat) * (k + 1) = 7 * k + 7 := by ring
      rw [e, pow_add] at hv
      norm_num at hv ⊢
      omega
    have := ihk (v >>> 7) hdiv
    simp only [List.length_cons]
    omega

theorem vfa_on : ∀ v fuel i acc : Nat, ∀ pre rest : List Nat,
    (varint_bytes v).length ≤ fuel →
    varint_full_aux (pre ++ (varint_bytes v ++ rest)) pre.length fuel i acc =
      (Except.ok (acc + v * 2 ^ (7 * i)), i + (varint_bytes v).length) := by
  intro v
  induction v using Nat.strong_induction_on with
  | _ v ih =>
    intro fuel i acc pre rest hf
    by_cases h127 : 0x7f < v
    · rw [vb_unfold, if_pos h127] at hf ⊢
      obtain ⟨f, rfl⟩ : ∃ f, fuel = f + 1 := ⟨fuel - 1, by simp at hf; omega⟩
      rw [vfa_step]
      rw [List.cons_append]
      have hget : (pre ++ ((v &&& 127 ||| 128) :: (varint_bytes (v >>> 7) ++ rest)))[pre.length]? =
          some (v &&& 127 ||| 128) := by
        rw [List.getElem?_append_right (le_refl _)]
        simp
      rw [hget]
      have hcont : ¬((v &&& 127 ||| 128) &&& 128 = 0) := by rw [cont_and128]; omega
      simp only [hcont, reduceIte]
      rw [cont_and127]
      have hre : pre ++ ((v &&& 127 ||| 128) :: (varint_bytes (v >>> 7) ++ rest)) =
          (pre ++ [v &&& 127 ||| 128]) ++ (varint_bytes (v >>> 7) ++ rest) := by simp
      rw [hre]
      have hlen : pre.length + 1 = (pre ++ [v &&& 127 ||| 128]).length := by simp
      rw [hlen]
      rw [ih (v >>> 7) (by rw [Nat.shiftRight_eq_div_pow]; omega) f (i + 1) _ _ rest
        (by simp at hf; omega)]
      simp only [Prod.mk.injEq, Except.ok.injEq, List.length_cons]
      constructor
      · rw [and127, Nat.shiftRight_eq_div_pow]
        have e : (7 : Nat) * (i + 1) = 7 * i + 7 := by ring
        rw [e, pow_add]
        conv_rhs => rw [← Nat.mod_add_div v 128]
        ring
      · omega
    · rw [vb_unfold, if_neg h127] at hf ⊢
      obtain ⟨f, rfl⟩ : ∃ f, fuel = f + 1 := ⟨fuel - 1, by simp at hf; omega⟩
      rw [vfa_step]
      rw [List.cons_append, List.nil_append]
      have hget : (pre ++ (v :: rest))[pre.length]? = some v := by
        rw [List.getElem?_append_right (le_refl _)]
        simp
      rw [hget]
      simp only [small_and128 v (by omega), reduceIte]
      simp

theorem varint_full_of_bytes (v : Nat) (rest : List Nat) (hv : v < 2 ^ 64) :
    varint_full (varint_bytes v ++ rest) 0 = (Except.ok v, (varint_bytes v).length) := by
  have h10 : (varint_bytes v).length ≤ 10 :=
    vb_len_le 10 v (by omega) (lt_of_lt_of_le hv (by norm_num))
  have h := vfa_on v 10 0 0 [] rest h10
  simpa [varint_full] using h

end Quack

namespace Quack

theorem vfa_isOk_iff : ∀ (fuel : Nat) (bytes : List Nat) (p i acc : Nat),
    ((∃ w, (varint_full_aux bytes p fuel i acc).1 = Except.ok w) ↔
      clear_within bytes p fuel = true) := by
  intro fuel
  induction fuel with
  | zero =>
    intro bytes p i acc
    simp [vfa_zero, clear_within]
  | succ f ihf =>
    intro bytes p i acc
    rw [vfa_step]
    cases hb : bytes[p]? with
    | none => simp [clear_within, hb]
    | some b =>
      by_cases hc : b &&& 0x80 = 0
      · simp [clear_within, hb, hc]
      · simp only [clear_within, hb, hc, reduceIte]
        exact ihf bytes (p + 1) (i + 1) _

theorem vfa_all_set : ∀ (fuel : Nat) (bytes : List Nat) (p i acc : Nat),
    (∀ j, j < fuel → p + j < bytes.length ∧ (bytes[p + j]?.getD 0) &&& 0x80 ≠ 0) →
    varint_full_aux bytes p fuel i acc = (Except.error Error.Varint, i + fuel) := by
  intro fuel
  induction fuel with
  | zero => intro bytes p i acc _; simp [vfa_zero]
  | succ f ihf =>
    intro bytes p i acc hall
    obtain ⟨hlt, hset⟩ := hall 0 (by omega)
    rw [vfa_step]
    cases hb : bytes[p]? with
    | none =>
      rw [List.getElem?_eq_none_iff] at hb
      omega
    | some b =>
      have hbset : b &&& 0x80 ≠ 0 := by
        simp only [Nat.add_zero] at hset
        rw [hb] at hset
        simpa using hset
      simp only [hbset, reduceIte]
      rw [ihf bytes (p + 1) (i + 1) _ (by
        intro j hj
        have := hall (j + 1) (by omega)
        constructor
        · omega
        · have e : p + 1 + j = p + (j + 1) := by omega
          rw [e]
          exact this.2)]
      simp only [Prod.mk.injEq]
      exact ⟨trivial, by omega⟩

theorem read_varint32_ok_state {r r' : BytesReader} {bytes : List Nat} {v : Nat}
    (h : ∀ b ∈ bytes, b < 256)
    (hok : read_varint32 r bytes = (Except.ok v, r')) :
    r'.end_ = r.end_ ∧ r.start ≤ r'.start ∧ v < 2 ^ 32 := by
  have hfull := read_varint32_full r bytes h
  rw [hok] at hfull
  cases hvfa : varint_full bytes r.start with
  | mk fst c =>
    cases fst with
    | ok w =>
      rw [hvfa] at hfull
      simp only [Prod.mk.injEq, Except.ok.injEq] at hfull
      obtain ⟨hv, hr⟩ := hfull
      subst hr
      refine ⟨rfl, by simp, ?_⟩
      rw [hv]
      exact Nat.mod_lt _ (by norm_num)
    | error e =>
      rw [hvfa] at hfull
      simp at hfull

theorem read_varint64_ok_state {r r' : BytesReader} {bytes : List Nat} {v : Nat}
    (h : ∀ b ∈ bytes, b < 256)
    (hok : read_varint64 r bytes = (Except.ok v, r')) :
    r'.end_ = r.end_ ∧ r.start ≤ r'.start ∧ v < 2 ^ 64 := by
  have hfull := read_varint64_full r bytes h
  rw [hok] at hfull
  cases hvfa : varint_full bytes r.start with
  | mk fst c =>
    cases fst with
    | ok w =>
      rw [hvfa] at hfull
      simp only [Prod.mk.injEq, Except.ok.injEq] at hfull
      obtain ⟨hv, hr⟩ := hfull
      subst hr
      refine ⟨rfl, by simp, ?_⟩
      rw [hv]
      exact Nat.mod_lt _ (by norm_num)
    | error e =>
      rw [hvfa] at hfull
      simp at hfull

theorem xor_ones : ∀ (k x : Nat), x < 2 ^ k → x ^^^ (2 ^ k - 1) = 2 ^ k - 1 - x := by
  intro k
  induction k with
  | zero =>
    intro x hx
    norm_num at hx
    subst hx
    rfl
  | succ k ihk =>
    intro x hx
    have h1 : (1 : Nat) ≤ 2 ^ k := Nat.one_le_two_pow
    have h2 : (2 : Nat) ^ (k + 1) = 2 * 2 ^ k := by rw [pow_succ]; ring
    have hx2 : x / 2 < 2 ^ k := by omega
    have hq := ihk (x / 2) hx2
    have hdiv : (x ^^^ (2 ^ (k + 1) - 1)) / 2 = (x / 2) ^^^ ((2 ^ (k + 1) - 1) / 2) :=
      Nat.xor_div_two
    have hm2 : (2 ^ (k + 1) - 1) / 2 = 2 ^ k - 1 := by omega
    rw [hm2] at hdiv
    rw [hq] at hdiv
    have hmod : (x ^^^ (2 ^ (k + 1) - 1)) % 2 = (x + (2 ^ (k + 1) - 1)) % 2 :=
      Nat.xor_mod_two_eq
    have hfin := Nat.div_add_mod (x ^^^ (2 ^ (k + 1) - 1)) 2
    omega

theorem zz32_dec_enc (n : Nat) (hn : n < 2 ^ 32) : zigzag_dec32 (zigzag_enc32 n) = n := by
  unfold zigzag_enc32 zigzag_dec32
  rw [Nat.shiftLeft_eq]
  by_cases h : n < 2 ^ 31
  · rw [if_pos h, Nat.xor_zero]
    have h1 : n * 2 ^ 1 % 2 ^ 32 = n * 2 := by
      norm_num
      omega
    rw [h1, Nat.shiftRight_eq_div_pow, Nat.and_one_is_mod]
    rw [if_pos (by omega)]
    rw [Nat.xor_zero]
    omega
  · rw [if_neg h]
    have h1 : n * 2 ^ 1 % 2 ^ 32 = n * 2 - 2 ^ 32 := by
      norm_num
      omega
    rw [h1, xor_ones 32 _ (by omega)]
    rw [Nat.shiftRight_eq_div_pow, Nat.and_one_is_mod]
    rw [if_neg (by omega)]
    rw [xor_ones 32 _ (by omega)]
    omega

theorem zz32_enc_dec (m : Nat) (hm : m < 2 ^ 32) : zigzag_enc32 (zigzag_dec32 m) = m := by
  unfold zigzag_enc32 zigzag_dec32
  rw [Nat.shiftRight_eq_div_pow, Nat.and_one_is_mod, Nat.shiftLeft_eq]
  by_cases h : m % 2 = 0
  · rw [if_pos h, Nat.xor_zero]
    rw [if_pos (by omega)]
    rw [Nat.xor_zero]
    omega
  · rw [if_neg h, xor_ones 32 _ (by omega)]
    rw [if_neg (by omega)]
    have h1 : (2 ^ 32 - 1 - m / 2) * 2 ^ 1 % 2 ^ 32 = (2 ^ 32 - 1 - m / 2) * 2 - 2 ^ 32 := by
      norm_num
      omega
    rw [h1, xor_ones 32 _ (by omega)]
    omega

theorem zz64_dec_enc (n : Nat) (hn : n < 2 ^ 64) : zigzag_dec64 (zigzag_enc64 n) = n := by
  unfold zigzag_enc64 zigzag_dec64
  rw [Nat.shiftLeft_eq]
  by_cases h : n < 2 ^ 63
  · rw [if_pos h, Nat.xor_zero]
    have h1 : n * 2 ^ 1 % 2 ^ 64 = n * 2 := by
      norm_num
      omega
    rw [h1, Nat.shiftRight_eq_div_pow, Nat.and_one_is_mod]
    rw [if_pos (by omega)]
    rw [Nat.xor_zero]
    omega
  · rw [if_neg h]
    have h1 : n * 2 ^ 1 % 2 ^ 64 = n * 2 - 2 ^ 64 := by
      norm_num
      omega
    rw [h1, xor_ones 64 _ (by omega)]
    rw [Nat.shiftRight_eq_div_pow, Nat.and_one_is_mod]
    rw [if_neg (by omega)]
    rw [xor_ones 64 _ (by omega)]
    omega

theorem zz64_enc_dec (m : Nat) (hm : m < 2 ^ 64) : zigzag_enc64 (zigzag_dec64 m) = m := by
  unfold zigzag_enc64 zigzag_dec64
  rw [Nat.shiftRight_eq_div_pow, Nat.and_one_is_mod, Nat.shiftLeft_eq]
  by_cases h : m % 2 = 0
  · rw [if_pos h, Nat.xor_zero]
    rw [if_pos (by omega)]
    rw [Nat.xor_zero]
    omega
  · rw [if_neg h, xor_ones 64 _ (by omega)]
    rw [if_neg (by omega)]
    have h1 : (2 ^ 64 - 1 - m / 2) * 2 ^ 1 % 2 ^ 64 = (2 ^ 64 - 1 - m / 2) * 2 - 2 ^ 64 := by
      norm_num
      omega
    rw [h1, xor_ones 64 _ (by omega)]
    omega

theorem zz32_lt (n : Nat) (hn : n < 2 ^ 32) : zigzag_enc32 n < 2 ^ 32 := by
  unfold zigzag_enc32
  apply Nat.xor_lt_two_pow
  · exact Nat.mod_lt _ (by norm_num)
  · split <;> norm_num

theorem zz64_lt (n : Nat) (hn : n < 2 ^ 64) : zigzag_enc64 n < 2 ^ 64 := by
  unfold zigzag_enc64
  apply Nat.xor_lt_two_pow
  · exact Nat.mod_lt _ (by norm_num)
  · split <;> norm_num

theorem sext32_lt (z : Nat) (hz : z < 2 ^ 32) : sext32_u64 z < 2 ^ 64 := by
  unfold sext32_u64
  split <;> omega

theorem sext32_mod (z : Nat) (hz : z < 2 ^ 32) : sext32_u64 z % 2 ^ 32 = z := by
  unfold sext32_u64
  split <;> omega

end Quack

namespace Quack

theorem le_bytes_length : ∀ (n x : Nat), (le_bytes n x).length = n := by
  intro n
  induction n with
  | zero => intro x; rfl
  | succ k ihk => intro x; simp [le_bytes, ihk]

theorem splice_length (l : List Nat) (c : Nat) (mid : List Nat)
    (h : c + mid.length ≤ l.length) : (splice l c mid).length = l.length := by
  unfold splice
  simp [List.length_take, List.length_drop]
  omega

theorem splice_get_lt (l : List Nat) (c : Nat) (mid : List Nat) (i : Nat)
    (hc : c ≤ l.length) (hi : i < c) : (splice l c mid)[i]? = l[i]? := by
  unfold splice
  rw [List.getElem?_append_left (by simp [List.length_take]; omega)]
  rw [List.getElem?_append_left (by simp [List.length_take]; omega)]
  rw [List.getElem?_take_of_lt hi]

theorem splice_get_mid (l : List Nat) (c : Nat) (mid : List Nat) (i : Nat)
    (hc : c ≤ l.length) (hi : c ≤ i) (hi2 : i < c + mid.length) :
    (splice l c mid)[i]? = mid[i - c]? := by
  unfold splice
  rw [List.getElem?_append_left (by simp [List.length_take]; omega)]
  rw [List.getElem?_append_right (by simp [List.length_take]; omega)]
  congr 1
  simp [List.length_take]
  omega

theorem splice_get_ge (l : List Nat) (c : Nat) (mid : List Nat) (i : Nat)
    (hc : c ≤ l.length) (hi : c + mid.length ≤ i) : (splice l c mid)[i]? = l[i]? := by
  unfold splice
  rw [List.getElem?_append_right (by simp [List.length_take]; omega)]
  rw [List.getElem?_drop]
  congr 1
  simp [List.length_take]
  omega

theorem splice_set (l : List Nat) (c : Nat) (b : Nat) (mid : List Nat)
    (hc : c < l.length) :
    splice (l.set c b) (c + 1) mid = splice l c (b :: mid) := by
  apply List.ext_getElem?
  intro i
  have hlen : (l.set c b).length = l.length := by simp
  by_cases h1 : i < c
  · rw [splice_get_lt _ _ _ _ (by omega) (by omega), splice_get_lt _ _ _ _ (by omega) h1]
    exact List.getElem?_set_ne (by omega)
  · by_cases h2 : i = c
    · subst h2
      rw [splice_get_lt _ _ _ _ (by omega) (by omega)]
      rw [splice_get_mid _ _ _ _ (by omega) (by omega) (by simp)]
      rw [List.getElem?_set_self hc]
      simp
    · by_cases h3 : i < c + 1 + mid.length
      · rw [splice_get_mid _ _ _ _ (by omega) (by omega) (by omega)]
        rw [splice_get_mid _ _ _ _ (by omega) (by omega) (by simp; omega)]
        have e : i - c = (i - c - 1) + 1 := by omega
        rw [e, List.getElem?_cons_succ, Nat.sub_sub]
      · rw [splice_get_ge _ _ _ _ (by omega) (by omega)]
        rw [splice_get_ge _ _ _ _ (by omega) (by simp; omega)]
        exact List.getElem?_set_ne (by omega)

theorem write_varint_ok : ∀ (v : Nat) (w : BytesWriter),
    w.cursor + (varint_bytes v).length ≤ w.buf.length →
    write_varint w v =
      (Except.ok (), ⟨splice w.buf w.cursor (varint_bytes v),
        w.cursor + (varint_bytes v).length⟩) := by
  intro v
  induction v using Nat.strong_induction_on with
  | _ v ih =>
    intro w hle
    by_cases h127 : 0x7f < v
    · rw [vb_unfold, if_pos h127] at hle ⊢
      simp only [List.length_cons] at hle
      rw [write_varint, if_pos h127]
      unfold pb_write_u8
      rw [if_neg (by omega)]
      simp only []
      rw [ih (v >>> 7) (by rw [Nat.shiftRight_eq_div_pow]; omega)
        ⟨w.buf.set w.cursor ((v &&& 0x7f) ||| 0x80), w.cursor + 1⟩
        (by simp [List.length_set]; omega)]
      simp only [Prod.mk.injEq, BytesWriter.mk.injEq, List.length_cons]
      refine ⟨trivial, ?_, by omega⟩
      exact splice_set w.buf w.cursor _ _ (by omega)
    · rw [vb_unfold, if_neg h127] at hle ⊢
      simp only [List.length_cons, List.length_nil] at hle
      rw [write_varint, if_neg h127]
      unfold pb_write_u8
      rw [if_neg (by omega)]
      simp only [Prod.mk.injEq, BytesWriter.mk.injEq]
      refine ⟨trivial, ?_, rfl⟩
      rw [List.set_eq_take_cons_drop _ (by omega)]
      unfold splice
      simp

end Quack

namespace Quack

theorem read_len_spec {α : Type} (r : BytesReader) (bytes : List Nat)
    (f : BytesReader → List Nat → Except Error α × BytesReader) (len : Nat)
    (v : α) (r₂ : BytesReader)
    (hf : f { r with end_ := r.start + len } bytes = (Except.ok v, r₂)) :
    read_len r bytes f len = (Except.ok v, { start := r₂.end_, end_ := r.end_ }) := by
  unfold read_len
  rw [hf]

theorem read_len_err {α : Type} (r : BytesReader) (bytes : List Nat)
    (f : BytesReader → List Nat → Except Error α × BytesReader) (len : Nat)
    (e : Error) (r₂ : BytesReader)
    (hf : f { r with end_ := r.start + len } bytes = (Except.error e, r₂)) :
    read_len r bytes f len = (Except.error e, r₂) := by
  unfold read_len
  rw [hf]

theorem rml_step {K V : Type}
    (rk : BytesReader → List Nat → Except Error K × BytesReader)
    (rv : BytesReader → List Nat → Except Error V × BytesReader)
    (fuel : Nat) (k : K) (v : V) (r : BytesReader) (bytes : List Nat) :
    read_map_loop rk rv (fuel + 1) k v r bytes =
      if r.is_eof then (Except.ok (k, v), r)
      else
        rbind (read_u8 r bytes) fun t r =>
          if t >>> 3 = 1 then
            rbind (rk r bytes) fun k' r => read_map_loop rk rv fuel k' v r bytes
          else if t >>> 3 = 2 then
            rbind (rv r bytes) fun v' r => read_map_loop rk rv fuel k v' r bytes
          else (Except.error (Error.Map (t >>> 3)), r) := rfl

theorem reachB_invariant : ∀ (bytes : List Nat) (r : BytesReader) (s : List Nat),
    (∀ b ∈ bytes, b < 256) → ReachB bytes r s →
    r.start ≤ r.end_ ∧ r.end_ ≤ bytes.length ∧
      List.Sorted (· ≤ ·) (r.end_ :: (s ++ [bytes.length])) := by
  intro bytes r s h256 hR
  induction hR with
  | init =>
    refine ⟨Nat.zero_le _, le_refl _, ?_⟩
    simp [from_bytes, List.sorted_cons]
  | @u8 r s b r' hR heq hg ih =>
    unfold read_u8 at heq
    cases hb : bytes[r.start]? with
    | none => rw [hb] at heq; simp at heq
    | some bb =>
      rw [hb] at heq
      simp only [Prod.mk.injEq, Except.ok.injEq] at heq
      obtain ⟨-, hr'⟩ := heq
      subst hr'
      exact ⟨hg, ih.2.1, ih.2.2⟩
  | @var32 r s v r' hR heq hg ih =>
    obtain ⟨hend, -, -⟩ := read_varint32_ok_state h256 heq
    rw [hend]
    exact ⟨by omega, ih.2.1, ih.2.2⟩
  | @var64 r s v r' hR heq hg ih =>
    obtain ⟨hend, -, -⟩ := read_varint64_ok_state h256 heq
    rw [hend]
    exact ⟨by omega, ih.2.1, ih.2.2⟩
  | @fixed r s n l r' hR hn heq hg ih =>
    unfold read_fixed_slice at heq
    split at heq
    · simp only [Prod.mk.injEq, Except.ok.injEq] at heq
      obtain ⟨-, hr'⟩ := heq
      subst hr'
      exact ⟨hg, ih.2.1, ih.2.2⟩
    · simp at heq
  | @to_end r s hR ih =>
    exact ⟨le_refl _, ih.2.1, ih.2.2⟩
  | @enter r s L r₁ hR heq hguard ih =>
    obtain ⟨hend, -, -⟩ := read_varint32_ok_state h256 heq
    have hsorted := ih.2.2
    rw [← hend] at hsorted
    have hhead := (List.sorted_cons.mp hsorted).1
    have htail := (List.sorted_cons.mp hsorted).2
    refine ⟨Nat.le_add_right _ _, ?_, ?_⟩
    · calc r₁.start + L ≤ r₁.end_ := hguard
        _ = r.end_ := hend
        _ ≤ bytes.length := ih.2.1
    · rw [List.cons_append, List.sorted_cons]
      constructor
      · intro x hx
        rcases List.mem_cons.mp hx with h1 | h2
        · subst h1; exact hguard
        · exact le_trans hguard (hhead x h2)
      · rw [List.sorted_cons]
        exact ⟨hhead, htail⟩
  | @exit r e s hR ih =>
    have hsorted := ih.2.2
    rw [List.cons_append, List.sorted_cons] at hsorted
    obtain ⟨hhead, htail⟩ := hsorted
    rw [List.sorted_cons] at htail
    refine ⟨?_, ?_, ?_⟩
    · exact hhead e (by simp)
    · exact htail.1 bytes.length (by simp)
    · rw [List.sorted_cons]
      exact htail

end Quack

namespace Quack

/-- Claim C1 (counterexample): the unguarded reachability relation can
reach a state whose end bound exceeds both the buffer length and the
saved outer end bound: on the buffer [5], entering a length-delimited
scope whose length varint decodes to 5 yields the cursor (1, 6) with
saved outer end 1, although the buffer has length 1. -/
theorem claim_C1_counterexample :
    ¬ (∀ (bytes : List Nat) (r : BytesReader) (s : List Nat), Reach bytes r s →
        r.start ≤ r.end_ ∧ r.end_ ≤ bytes.length ∧ ∀ e ∈ s, r.end_ ≤ e) := by
  intro hP
  have hreach : Reach [5] ⟨1, 6⟩ [1] := by
    have h0 : Reach [5] (from_bytes [5]) [] := Reach.init
    exact Reach.enter h0
      (show read_varint32 (from_bytes [5]) [5] = (Except.ok 5, ⟨1, 1⟩) from rfl)
  have h := (hP [5] ⟨1, 6⟩ [1] hreach).2.1
  exact absurd h (by decide)

/-- Claim C1 (amended): the cursor invariant 0 ≤ start ≤ end ≤ bytes.len
and the nesting of end bounds hold for all reachable states provided
every primitive read stays within the current scope and every scope
entry's decoded length fits the remaining budget (the relation ReachB);
the code itself does not enforce either condition (see the
counterexample). -/
theorem claim_C1 : ∀ (bytes : List Nat) (r : BytesReader) (s : List Nat),
    (∀ b ∈ bytes, b < 256) → ReachB bytes r s →
    r.start ≤ r.end_ ∧ r.end_ ≤ bytes.length ∧
      List.Sorted (· ≤ ·) (r.end_ :: (s ++ [bytes.length])) :=
  reachB_invariant

/-- Witness for C1 at the one-byte buffer [42] and the initial state. -/
theorem claim_C1_witness :
    (from_bytes [42]).start ≤ (from_bytes [42]).end_ ∧
      (from_bytes [42]).end_ ≤ ([42] : List Nat).length ∧
      List.Sorted (· ≤ ·) ((from_bytes [42]).end_ :: (([] : List Nat) ++ [([42] : List Nat).length])) :=
  claim_C1 [42] (from_bytes [42]) [] (by decide) ReachB.init

/-- Claim C3: varint round-trip through the writer and the 64-bit
reader: writing any v < 2^64 with write_varint into a fresh
sufficiently large buffer succeeds, places exactly the reference
encoding varint_bytes v at the front, and read_varint64 on the
resulting buffer returns exactly v having consumed exactly the whole
encoding. -/
theorem claim_C3 (v : Nat) (hv : v < 2 ^ 64) (buf : List Nat)
    (h256 : ∀ b ∈ buf, b < 256) (hlen : (varint_bytes v).length ≤ buf.length) :
    write_varint ⟨buf, 0⟩ v =
      (Except.ok (), ⟨varint_bytes v ++ buf.drop (varint_bytes v).length,
        (varint_bytes v).length⟩) ∧
    read_varint64 (from_bytes (varint_bytes v ++ buf.drop (varint_bytes v).length))
        (varint_bytes v ++ buf.drop (varint_bytes v).length) =
      (Except.ok v, ⟨(varint_bytes v).length,
        (varint_bytes v ++ buf.drop (varint_bytes v).length).length⟩) := by
  constructor
  · have h := write_varint_ok v ⟨buf, 0⟩ (by simpa using hlen)
    rw [h]
    unfold splice
    simp
  · have hb : ∀ b ∈ varint_bytes v ++ buf.drop (varint_bytes v).length, b < 256 := by
      intro b hbb
      rcases List.mem_append.mp hbb with h1 | h2
      · exact vb_mem v b h1
      · exact h256 b ((List.drop_sublist _ _).mem h2)
    have h := read_varint64_full (from_bytes (varint_bytes v ++ buf.drop (varint_bytes v).length)) _ hb
    rw [h]
    rw [show (from_bytes (varint_bytes v ++ buf.drop (varint_bytes v).length)).start = 0 from rfl]
    rw [varint_full_of_bytes v _ hv]
    simp [from_bytes, Nat.mod_eq_of_lt hv]
    omega

/-- Witness for C3 at v = 300 and a ten-byte zero buffer. -/
theorem claim_C3_witness :
    write_varint ⟨[0,0,0,0,0,0,0,0,0,0], 0⟩ 300 =
      (Except.ok (), ⟨varint_bytes 300 ++ List.drop (varint_bytes 300).length [0,0,0,0,0,0,0,0,0,0],
        (varint_bytes 300).length⟩) ∧
    read_varint64
        (from_bytes (varint_bytes 300 ++ List.drop (varint_bytes 300).length [0,0,0,0,0,0,0,0,0,0]))
        (varint_bytes 300 ++ List.drop (varint_bytes 300).length [0,0,0,0,0,0,0,0,0,0]) =
      (Except.ok 300, ⟨(varint_bytes 300).length,
        (varint_bytes 300 ++ List.drop (varint_bytes 300).length [0,0,0,0,0,0,0,0,0,0]).length⟩) :=
  claim_C3 300 (by norm_num) [0,0,0,0,0,0,0,0,0,0] (by decide)
    (by simpa using vb_len_le 10 300 (by omega) (by norm_num))

/-- Claim C5 (counterexample): a varint read with zero bytes remaining
in the current range does NOT fail when the underlying buffer still has
bytes past the scoped end: at cursor (1, 1) over [0, 5] the remaining
length is 0 yet read_varint32 succeeds with value 5, reading past the
scope. -/
theorem claim_C5_counterexample :
    ¬ (∀ (r : BytesReader) (bytes : List Nat), BytesReader.len r = 0 →
        (read_varint32 r bytes).1 = Except.error Error.UnexpectedEndOfBuffer) := by
  intro hP
  have h := hP ⟨1, 1⟩ [0, 5] rfl
  rw [show read_varint32 ⟨1, 1⟩ [0, 5] = (Except.ok 5, ⟨2, 1⟩) from rfl] at h
  simp at h

/-- Claim C5 (amended): the reader's bounds checks are made against the
underlying buffer, not against the scoped end: reads fail with
UnexpectedEndOfBuffer exactly when the buffer itself lacks the bytes
(conjunct 3 shows a single-byte read succeeds whenever start is inside
the buffer, regardless of end), and a failing read leaves the cursor
unchanged. -/
theorem claim_C5 :
    (∀ (r : BytesReader) (bytes : List Nat), bytes.length ≤ r.start →
        read_u8 r bytes = (Except.error Error.UnexpectedEndOfBuffer, r) ∧
        read_varint32 r bytes = (Except.error Error.UnexpectedEndOfBuffer, r) ∧
        read_varint64 r bytes = (Except.error Error.UnexpectedEndOfBuffer, r)) ∧
    (∀ (r : BytesReader) (bytes : List Nat) (n : Nat), bytes.length < r.start + n →
        read_fixed_slice r bytes n = (Except.error Error.UnexpectedEndOfBuffer, r)) ∧
    (∀ (r : BytesReader) (bytes : List Nat), r.start < bytes.length →
        ∃ b, bytes[r.start]? = some b ∧
          read_u8 r bytes = (Except.ok b, { r with start := r.start + 1 })) := by
  refine ⟨?_, ?_, ?_⟩
  · intro r bytes hle
    have h8 : read_u8 r bytes = (Except.error Error.UnexpectedEndOfBuffer, r) := by
      unfold read_u8
      rw [List.getElem?_eq_none hle]
    refine ⟨h8, ?_, ?_⟩
    · unfold read_varint32
      rw [h8]
      rfl
    · unfold read_varint64
      rw [h8]
      rfl
  · intro r bytes n hlt
    unfold read_fixed_slice
    rw [if_neg (by omega)]
  · intro r bytes hlt
    refine ⟨bytes[r.start], ?_, ?_⟩
    · exact List.getElem?_eq_getElem hlt
    · unfold read_u8
      rw [List.getElem?_eq_getElem hlt]

/-- Witness for C5 at a reader positioned past a two-byte buffer. -/
theorem claim_C5_witness :
    read_u8 ⟨2, 5⟩ [9, 9] = (Except.error Error.UnexpectedEndOfBuffer, ⟨2, 5⟩) ∧
    read_varint32 ⟨2, 5⟩ [9, 9] = (Except.error Error.UnexpectedEndOfBuffer, ⟨2, 5⟩) ∧
    read_varint64 ⟨2, 5⟩ [9, 9] = (Except.error Error.UnexpectedEndOfBuffer, ⟨2, 5⟩) :=
  claim_C5.1 ⟨2, 5⟩ [9, 9] (by norm_num)

end Quack

namespace Quack

/-- Claim C6: read_unknown dispatches on the tag's low 3 bits: wire
type 0 consumes one 64-bit varint; 1 and 5 advance by 8 and 4 bytes,
failing with Varint when the current range has fewer; 2 decodes a
length varint and advances by it, failing with Varint when it exceeds
the remaining range; 3 and 4 fail with Deprecated "group"; 6 and 7
fail with UnknownWireType carrying the low 3 bits. -/
theorem claim_C6 :
    (∀ (r : BytesReader) (bytes : List Nat) (tag : Nat), tag &&& 0x7 = 0 →
        read_unknown r bytes tag =
          (match read_varint64 r bytes with
           | (Except.ok _, r') => (Except.ok (), r')
           | (Except.error e, r') => (Except.error e, r'))) ∧
    (∀ (r : BytesReader) (bytes : List Nat) (tag : Nat), tag &&& 0x7 = 1 →
        ((r.end_ - r.start < 8 → read_unknown r bytes tag = (Except.error Error.Varint, r)) ∧
         (8 ≤ r.end_ - r.start →
            read_unknown r bytes tag = (Except.ok (), { r with start := r.start + 8 })))) ∧
    (∀ (r : BytesReader) (bytes : List Nat) (tag : Nat), tag &&& 0x7 = 5 →
        ((r.end_ - r.start < 4 → read_unknown r bytes tag = (Except.error Error.Varint, r)) ∧
         (4 ≤ r.end_ - r.start →
            read_unknown r bytes tag = (Except.ok (), { r with start := r.start + 4 })))) ∧
    (∀ (r r' : BytesReader) (bytes : List Nat) (tag L : Nat), tag &&& 0x7 = 2 →
        read_varint64 r bytes = (Except.ok L, r') →
        ((r'.end_ - r'.start < L → read_unknown r bytes tag = (Except.error Error.Varint, r')) ∧
         (L ≤ r'.end_ - r'.start →
            read_unknown r bytes tag = (Except.ok (), { r' with start := r'.start + L })))) ∧
    (∀ (r : BytesReader) (bytes : List Nat) (tag : Nat),
        tag &&& 0x7 = 3 ∨ tag &&& 0x7 = 4 →
        read_unknown r bytes tag = (Except.error (Error.Deprecated ("group")), r)) ∧
    (∀ (r : BytesReader) (bytes : List Nat) (tag : Nat),
        tag &&& 0x7 = 6 ∨ tag &&& 0x7 = 7 →
        read_unknown r bytes tag = (Except.error (Error.UnknownWireType (tag &&& 0x7)), r)) := by
  refine ⟨?_, ?_, ?_, ?_, ?_, ?_⟩
  · intro r bytes tag htag
    unfold read_unknown
    rw [if_pos htag]
    cases h64 : read_varint64 r bytes with
    | mk fst r' => cases fst <;> simp [rbind]
  · intro r bytes tag htag
    unfold read_unknown
    rw [if_neg (by omega), if_pos htag]
    unfold skip_off
    constructor
    · intro hlt
      rw [if_pos hlt]
    · intro hge
      rw [if_neg (by omega)]
  · intro r bytes tag htag
    unfold read_unknown
    rw [if_neg (by omega), if_neg (by omega), if_pos htag]
    unfold skip_off
    constructor
    · intro hlt
      rw [if_pos hlt]
    · intro hge
      rw [if_neg (by omega)]
  · intro r r' bytes tag L htag h64
    unfold read_unknown
    rw [if_neg (by omega), if_neg (by omega), if_neg (by omega), if_pos htag]
    unfold rbind
    rw [h64]
    simp only []
    unfold skip_off
    constructor
    · intro hlt
      rw [if_pos hlt]
    · intro hge
      rw [if_neg (by omega)]
  · intro r bytes tag htag
    unfold read_unknown
    rcases htag with h3 | h4
    · rw [if_neg (by omega), if_neg (by omega), if_neg (by omega), if_neg (by omega), if_pos h3]
    · rw [if_neg (by omega), if_neg (by omega), if_neg (by omega), if_neg (by omega),
        if_neg (by omega), if_pos h4]
  · intro r bytes tag htag
    unfold read_unknown
    rw [if_neg (by omega), if_neg (by omega), if_neg (by omega), if_neg (by omega),
      if_neg (by omega), if_neg (by omega)]

/-- Witness for C6: a tag with wire type 6 is rejected with
UnknownWireType 6 (the spec's malformed-wire-type scenario). -/
theorem claim_C6_witness :
    read_unknown ⟨0, 3⟩ [9, 9, 9] 14 =
      (Except.error (Error.UnknownWireType (14 &&& 0x7)), ⟨0, 3⟩) :=
  claim_C6.2.2.2.2.2 ⟨0, 3⟩ [9, 9, 9] 14 (Or.inl rfl)

/-- Claim C10: write_sint32 emits the varint encoding of the 64-bit
sign extension of the 32-bit zig-zag result; the zig-zag result has
its sign bit set exactly when the signed value v satisfies v ≥ 2^30 or
v ≤ -2^30 - 1, and in that case the emitted varint is 10 bytes long,
although the 32-bit zig-zag value itself always encodes in at most 5
bytes. -/
theorem claim_C10 (n : Nat) (hn : n < 2 ^ 32) :
    (∀ buf : List Nat, (varint_bytes (sext32_u64 (zigzag_enc32 n))).length ≤ buf.length →
        write_sint32 ⟨buf, 0⟩ n =
          (Except.ok (), ⟨varint_bytes (sext32_u64 (zigzag_enc32 n)) ++
              buf.drop (varint_bytes (sext32_u64 (zigzag_enc32 n))).length,
            (varint_bytes (sext32_u64 (zigzag_enc32 n))).length⟩)) ∧
    ((2 ^ 31 ≤ zigzag_enc32 n) ↔ (2 ^ 30 ≤ i32val n ∨ i32val n ≤ -(2 ^ 30) - 1)) ∧
    (2 ^ 31 ≤ zigzag_enc32 n → (varint_bytes (sext32_u64 (zigzag_enc32 n))).length = 10) ∧
    (varint_bytes (zigzag_enc32 n)).length ≤ 5 := by
  refine ⟨?_, ?_, ?_, ?_⟩
  · intro buf hlen
    unfold write_sint32
    have h := write_varint_ok (sext32_u64 (zigzag_enc32 n)) ⟨buf, 0⟩ (by simpa using hlen)
    rw [h]
    unfold splice
    simp
  · unfold zigzag_enc32 i32val
    rw [Nat.shiftLeft_eq]
    by_cases h : n < 2 ^ 31
    · rw [if_pos h, if_pos h, Nat.xor_zero]
      have h1 : n * 2 ^ 1 % 2 ^ 32 = n * 2 := by
        norm_num
        omega
      rw [h1]
      omega
    · rw [if_neg h, if_neg h]
      have h1 : n * 2 ^ 1 % 2 ^ 32 = n * 2 - 2 ^ 32 := by
        norm_num
        omega
      rw [h1, xor_ones 32 _ (by omega)]
      omega
  · intro hsign
    have hz : zigzag_enc32 n < 2 ^ 32 := zz32_lt n hn
    have hE : sext32_u64 (zigzag_enc32 n) = zigzag_enc32 n + (2 ^ 64 - 2 ^ 32) := by
      unfold sext32_u64
      rw [if_neg (by omega)]
    have hge : 2 ^ (7 * 9) ≤ sext32_u64 (zigzag_enc32 n) := by
      rw [hE]
      omega
    have hle : sext32_u64 (zigzag_enc32 n) < 2 ^ (7 * 10) := by
      rw [hE]
      omega
    have h1 := vb_len_ge 9 _ hge
    have h2 := vb_len_le 10 _ (by omega) hle
    omega
  · have hz : zigzag_enc32 n < 2 ^ (7 * 5) := lt_of_lt_of_le (zz32_lt n hn) (by norm_num)
    exact vb_len_le 5 _ (by omega) hz

/-- Witness for C10 at the boundary value n = 2^30 (signed value 2^30),
whose zig-zag encoding has the sign bit set. -/
theorem claim_C10_witness :
    ((2 ^ 31 ≤ zigzag_enc32 (2 ^ 30)) ↔
      (2 ^ 30 ≤ i32val (2 ^ 30) ∨ i32val (2 ^ 30) ≤ -(2 ^ 30) - 1)) ∧
    (varint_bytes (sext32_u64 (zigzag_enc32 (2 ^ 30)))).length = 10 := by
  have h := claim_C10 (2 ^ 30) (by norm_num)
  refine ⟨h.2.1, h.2.2.1 ?_⟩
  rw [show zigzag_enc32 (2 ^ 30) = 2 ^ 31 from rfl]

end Quack

namespace Quack

/-- Claim C2: read_varint32 is fully characterised by the reference
scan varint_full: it succeeds exactly when a byte with clear
continuation bit occurs within the first 10 available bytes
(clear_within), on success returns the low 32 bits of the full
untruncated varint value (so the fifth byte's payload is truncated to
4 bits and continuation bytes six to ten are discarded), and after 10
continuation bytes fails with Varint. -/
theorem claim_C2 :
    (∀ (r : BytesReader) (bytes : List Nat), (∀ b ∈ bytes, b < 256) →
        read_varint32 r bytes =
          (match varint_full bytes r.start with
           | (Except.ok v, c) => (Except.ok (v % 2 ^ 32), { r with start := r.start + c })
           | (Except.error e, c) => (Except.error e, { r with start := r.start + c }))) ∧
    (∀ (r : BytesReader) (bytes : List Nat), (∀ b ∈ bytes, b < 256) →
        ((∃ w r', read_varint32 r bytes = (Except.ok w, r')) ↔
          clear_within bytes r.start 10 = true)) ∧
    (∀ (r : BytesReader) (bytes : List Nat), (∀ b ∈ bytes, b < 256) →
        (∀ j, j < 10 → r.start + j < bytes.length ∧ (bytes[r.start + j]?.getD 0) &&& 0x80 ≠ 0) →
        read_varint32 r bytes = (Except.error Error.Varint, { r with start := r.start + 10 })) := by
  refine ⟨read_varint32_full, ?_, ?_⟩
  · intro r bytes h
    have hiff : (∃ w, (varint_full bytes r.start).1 = Except.ok w) ↔
        clear_within bytes r.start 10 = true := vfa_isOk_iff 10 bytes r.start 0 0
    rw [read_varint32_full r bytes h]
    cases hvfa : varint_full bytes r.start with
    | mk fst c =>
      rw [hvfa] at hiff
      cases fst with
      | ok w =>
        simp only [] at hiff ⊢
        simp at hiff
        simp [hiff]
      | error e =>
        simp only [] at hiff ⊢
        simp at hiff
        simp [hiff]
  · intro r bytes h hall
    rw [read_varint32_full r bytes h]
    have hva := vfa_all_set 10 bytes r.start 0 0 hall
    rw [show varint_full bytes r.start = varint_full_aux bytes r.start 10 0 0 from rfl, hva]

/-- Witness for C2: ten continuation bytes produce Error.Varint with
ten bytes consumed. -/
theorem claim_C2_witness :
    read_varint32 ⟨0, 10⟩ [128, 128, 128, 128, 128, 128, 128, 128, 128, 128] =
      (Except.error Error.Varint, ⟨10, 10⟩) :=
  claim_C2.2.2 ⟨0, 10⟩ [128, 128, 128, 128, 128, 128, 128, 128, 128, 128]
    (by decide) (by decide)

/-- Claim C4: scope-containment arithmetic of read_len_varint: when the
length varint decodes to L leaving the cursor at r₁ and the inner
function succeeds having set its end to the scope bound, the outer
reader ends at exactly r₁.start + L (that is, S + varint_length + L)
with its end bound restored; instantiated concretely for read_bytes in
the second conjunct. -/
theorem claim_C4 :
    (∀ (α : Type) (f : BytesReader → List Nat → Except Error α × BytesReader)
        (r r₁ r₂ : BytesReader) (bytes : List Nat) (L : Nat) (v : α),
        (∀ b ∈ bytes, b < 256) →
        read_varint32 r bytes = (Except.ok L, r₁) →
        f { start := r₁.start, end_ := r₁.start + L } bytes = (Except.ok v, r₂) →
        r₂.end_ = r₁.start + L →
        (read_len_varint r bytes f =
            (Except.ok v, { start := r₁.start + L, end_ := r.end_ }) ∧
          r.start ≤ r₁.start)) ∧
    (∀ (r r₁ : BytesReader) (bytes : List Nat) (L : Nat),
        (∀ b ∈ bytes, b < 256) →
        read_varint32 r bytes = (Except.ok L, r₁) →
        r₁.start + L ≤ bytes.length →
        read_bytes r bytes =
          (Except.ok ((bytes.drop r₁.start).take L),
            { start := r₁.start + L, end_ := r.end_ })) := by
  constructor
  · intro α f r r₁ r₂ bytes L v h256 hvar hf hend
    obtain ⟨he, hs, -⟩ := read_varint32_ok_state h256 hvar
    refine ⟨?_, hs⟩
    unfold read_len_varint
    rw [hvar]
    simp only []
    rw [read_len_spec r₁ bytes f L v r₂ hf]
    rw [hend, he]
  · intro r r₁ bytes L h256 hvar hle
    obtain ⟨he, hs, -⟩ := read_varint32_ok_state h256 hvar
    unfold read_bytes read_len_varint
    rw [hvar]
    simp only []
    rw [read_len_spec r₁ bytes _ L ((bytes.drop r₁.start).take L)
      { start := r₁.start, end_ := r₁.start + L } (by
        rw [if_pos ⟨by simp, by simpa using hle⟩]
        simp [Nat.add_sub_cancel_left])]
    rw [he]

/-- Witness for C4: reading the length-prefixed byte field 02 61 62
from offset 0 consumes the length byte plus two payload bytes. -/
theorem claim_C4_witness :
    read_bytes ⟨0, 3⟩ [2, 61, 62] =
      (Except.ok ((List.drop 1 [2, 61, 62]).take 2), ⟨1 + 2, 3⟩) :=
  claim_C4.2 ⟨0, 3⟩ ⟨1, 3⟩ [2, 61, 62] 2 (by decide) rfl (by norm_num)

end Quack

namespace Quack

/-- Claim C7 (counterexample): read_map reports the high 5 bits of the
first tag byte, not the entry's field number.  The entry 98 00 inside
a map scope has the wire-format tag varint 98 00, which decodes to tag
value 24, i.e. field number 3 — but read_map fails with Map 19
(0x98 >>> 3), not Map 3. -/
theorem claim_C7_counterexample :
    read_map (⟨0, 3⟩ : BytesReader) [2, 0x98, 0x00] (0 : Nat) (0 : Nat)
        read_varint32 read_varint32 = (Except.error (Error.Map 19), ⟨2, 3⟩) ∧
    read_varint32 ⟨1, 3⟩ [2, 0x98, 0x00] = (Except.ok 24, ⟨3, 3⟩) ∧
    24 >>> 3 = 3 ∧ (19 : Nat) ≠ 3 :=
  ⟨rfl, rfl, rfl, by decide⟩

/-- Claim C7 (amended): read_map decodes a map entry as a nested
length-delimited message, dispatching on the high 5 bits of a single
tag byte: field number 1 goes to the key decoder and 2 to the value
decoder until the scope is exhausted; a missing field keeps the
supplied default; a first tag byte t with t >>> 3 outside {1, 2} fails
with Map (t >>> 3) — the high 5 bits of the byte, which equal the
entry's field number only for single-byte tags (field numbers below
16). -/
theorem claim_C7 :
    (∀ (K V : Type) (k0 : K) (v0 : V)
        (rk : BytesReader → List Nat → Except Error K × BytesReader)
        (rv : BytesReader → List Nat → Except Error V × BytesReader)
        (r r₁ : BytesReader) (bytes : List Nat) (L t : Nat),
        read_varint32 r bytes = (Except.ok L, r₁) → 0 < L →
        bytes[r₁.start]? = some t → t >>> 3 ≠ 1 → t >>> 3 ≠ 2 →
        read_map r bytes k0 v0 rk rv =
          (Except.error (Error.Map (t >>> 3)), ⟨r₁.start + 1, r₁.start + L⟩)) ∧
    (∀ (K V : Type) (k0 : K) (v0 : V)
        (rk : BytesReader → List Nat → Except Error K × BytesReader)
        (rv : BytesReader → List Nat → Except Error V × BytesReader)
        (r r₁ : BytesReader) (bytes : List Nat),
        (∀ b ∈ bytes, b < 256) →
        read_varint32 r bytes = (Except.ok 0, r₁) →
        read_map r bytes k0 v0 rk rv = (Except.ok (k0, v0), ⟨r₁.start, r.end_⟩)) ∧
    (read_map (⟨0, 7⟩ : BytesReader) [6, 0x08, 0x96, 0x01, 0x10, 0xAC, 0x02] (0 : Nat) (0 : Nat)
        read_varint32 read_varint32 = (Except.ok (150, 300), ⟨7, 7⟩)) ∧
    (read_map (⟨0, 4⟩ : BytesReader) [3, 0x10, 0xAC, 0x02] (0 : Nat) (0 : Nat)
        read_varint32 read_varint32 = (Except.ok (0, 300), ⟨4, 4⟩)) := by
  refine ⟨?_, ?_, rfl, rfl⟩
  · intro K V k0 v0 rk rv r r₁ bytes L t hvar hL hget ht1 ht2
    unfold read_map read_len_varint
    rw [hvar]
    simp only []
    apply read_len_err
    rw [rml_step]
    have heof : ({ r₁ with end_ := r₁.start + L } : BytesReader).is_eof = false := by
      simp [BytesReader.is_eof]
      omega
    rw [heof]
    simp only [Bool.false_eq_true, if_false]
    unfold rbind read_u8
    simp only []
    rw [hget]
    simp only [ht1, ht2, reduceIte]
  · intro K V k0 v0 rk rv r r₁ bytes h256 hvar
    obtain ⟨he, -, -⟩ := read_varint32_ok_state h256 hvar
    unfold read_map read_len_varint
    rw [hvar]
    simp only []
    rw [read_len_spec r₁ bytes _ 0 (k0, v0) { r₁ with end_ := r₁.start + 0 } (by
      rw [rml_step]
      have heof : ({ r₁ with end_ := r₁.start + 0 } : BytesReader).is_eof = true := by
        simp [BytesReader.is_eof]
      rw [heof]
      simp only [if_true, reduceIte])]
    rw [he]
    simp

/-- Witness for C7: an empty map entry yields the supplied defaults. -/
theorem claim_C7_witness :
    read_map (⟨0, 1⟩ : BytesReader) [0] (7 : Nat) (8 : Nat) read_varint32 read_varint32 =
      (Except.ok (7, 8), ⟨1, 1⟩) :=
  claim_C7.2.1 Nat Nat 7 8 read_varint32 read_varint32 ⟨0, 1⟩ ⟨1, 1⟩ [0] (by decide) rfl

end Quack

namespace Quack

/-- Claim C8: every BytesWriter backend operation with cursor ≤ buf.len
fails with UnexpectedEndOfBuffer leaving the whole state untouched
when its byte count exceeds buf.len - cursor, and otherwise succeeds,
splicing exactly its little-endian payload in at the cursor and
advancing the cursor by exactly the byte count; the last two conjuncts
pin down the splice: it preserves the length, leaves every byte
outside [cursor, cursor+N) unchanged and stores the payload inside,
and the payload of an N-byte write has length N. -/
theorem claim_C8 :
    (∀ (w : BytesWriter) (x : Nat), w.cursor ≤ w.buf.length →
        (w.buf.length - w.cursor < 1 →
          pb_write_u8 w x = (Except.error Error.UnexpectedEndOfBuffer, w)) ∧
        (1 ≤ w.buf.length - w.cursor →
          pb_write_u8 w x = (Except.ok (), ⟨splice w.buf w.cursor [x], w.cursor + 1⟩))) ∧
    (∀ (w : BytesWriter) (x : Nat), w.cursor ≤ w.buf.length →
        (w.buf.length - w.cursor < 4 →
          pb_write_u32 w x = (Except.error Error.UnexpectedEndOfBuffer, w)) ∧
        (4 ≤ w.buf.length - w.cursor →
          pb_write_u32 w x = (Except.ok (), ⟨splice w.buf w.cursor (le_bytes 4 x), w.cursor + 4⟩))) ∧
    (∀ (w : BytesWriter) (x : Int), w.cursor ≤ w.buf.length →
        (w.buf.length - w.cursor < 4 →
          pb_write_i32 w x = (Except.error Error.UnexpectedEndOfBuffer, w)) ∧
        (4 ≤ w.buf.length - w.cursor →
          pb_write_i32 w x =
            (Except.ok (), ⟨splice w.buf w.cursor (le_bytes 4 (x % 2 ^ 32).toNat), w.cursor + 4⟩))) ∧
    (∀ (w : BytesWriter) (x : Nat), w.cursor ≤ w.buf.length →
        (w.buf.length - w.cursor < 4 →
          pb_write_f32 w x = (Except.error Error.UnexpectedEndOfBuffer, w)) ∧
        (4 ≤ w.buf.length - w.cursor →
          pb_write_f32 w x = (Except.ok (), ⟨splice w.buf w.cursor (le_bytes 4 x), w.cursor + 4⟩))) ∧
    (∀ (w : BytesWriter) (x : Nat), w.cursor ≤ w.buf.length →
        (w.buf.length - w.cursor < 8 →
          pb_write_u64 w x = (Except.error Error.UnexpectedEndOfBuffer, w)) ∧
        (8 ≤ w.buf.length - w.cursor →
          pb_write_u64 w x = (Except.ok (), ⟨splice w.buf w.cursor (le_bytes 8 x), w.cursor + 8⟩))) ∧
    (∀ (w : BytesWriter) (x : Int), w.cursor ≤ w.buf.length →
        (w.buf.length - w.cursor < 8 →
          pb_write_i64 w x = (Except.error Error.UnexpectedEndOfBuffer, w)) ∧
        (8 ≤ w.buf.length - w.cursor →
          pb_write_i64 w x =
            (Except.ok (), ⟨splice w.buf w.cursor (le_bytes 8 (x % 2 ^ 64).toNat), w.cursor + 8⟩))) ∧
    (∀ (w : BytesWriter) (x : Nat), w.cursor ≤ w.buf.length →
        (w.buf.length - w.cursor < 8 →
          pb_write_f64 w x = (Except.error Error.UnexpectedEndOfBuffer, w)) ∧
        (8 ≤ w.buf.length - w.cursor →
          pb_write_f64 w x = (Except.ok (), ⟨splice w.buf w.cursor (le_bytes 8 x), w.cursor + 8⟩))) ∧
    (∀ (w : BytesWriter) (xs : List Nat), w.cursor ≤ w.buf.length →
        (w.buf.length - w.cursor < xs.length →
          pb_write_all w xs = (Except.error Error.UnexpectedEndOfBuffer, w)) ∧
        (xs.length ≤ w.buf.length - w.cursor →
          pb_write_all w xs =
            (Except.ok (), ⟨splice w.buf w.cursor xs, w.cursor + xs.length⟩))) ∧
    (∀ (l : List Nat) (c : Nat) (mid : List Nat), c + mid.length ≤ l.length →
        (splice l c mid).length = l.length ∧
        (∀ i, i < c → (splice l c mid)[i]? = l[i]?) ∧
        (∀ i, c ≤ i → i < c + mid.length → (splice l c mid)[i]? = mid[i - c]?) ∧
        (∀ i, c + mid.length ≤ i → (splice l c mid)[i]? = l[i]?)) ∧
    (∀ (n x : Nat), (le_bytes n x).length = n) := by
  refine ⟨?_, ?_, ?_, ?_, ?_, ?_, ?_, ?_, ?_, le_bytes_length⟩
  · intro w x hc
    unfold pb_write_u8
    refine ⟨fun hlt => by rw [if_pos hlt], fun hge => ?_⟩
    rw [if_neg (by omega)]
    rw [List.set_eq_take_cons_drop _ (by omega)]
    unfold splice
    simp
  · intro w x hc
    unfold pb_write_u32
    exact ⟨fun hlt => by rw [if_pos hlt], fun hge => by rw [if_neg (by omega)]⟩
  · intro w x hc
    unfold pb_write_i32
    exact ⟨fun hlt => by rw [if_pos hlt], fun hge => by rw [if_neg (by omega)]⟩
  · intro w x hc
    unfold pb_write_f32
    exact ⟨fun hlt => by rw [if_pos hlt], fun hge => by rw [if_neg (by omega)]⟩
  · intro w x hc
    unfold pb_write_u64
    exact ⟨fun hlt => by rw [if_pos hlt], fun hge => by rw [if_neg (by omega)]⟩
  · intro w x hc
    unfold pb_write_i64
    exact ⟨fun hlt => by rw [if_pos hlt], fun hge => by rw [if_neg (by omega)]⟩
  · intro w x hc
    unfold pb_write_f64
    exact ⟨fun hlt => by rw [if_pos hlt], fun hge => by rw [if_neg (by omega)]⟩
  · intro w xs hc
    unfold pb_write_all
    exact ⟨fun hlt => by rw [if_pos hlt], fun hge => by rw [if_neg (by omega)]⟩
  · intro l c mid h
    exact ⟨splice_length l c mid h,
      fun i hi => splice_get_lt l c mid i (by omega) hi,
      fun i hi hi2 => splice_get_mid l c mid i (by omega) hi hi2,
      fun i hi => splice_get_ge l c mid i (by omega) hi⟩

/-- Witness for C8: a one-byte write into a full two-byte buffer at
cursor 1 succeeds and advances the cursor to 2. -/
theorem claim_C8_witness :
    pb_write_u8 ⟨[0, 0], 1⟩ 77 = (Except.ok (), ⟨splice [0, 0] 1 [77], 1 + 1⟩) :=
  (claim_C8.1 ⟨[0, 0], 1⟩ 77 (by norm_num)).2 (by norm_num)

/-- Claim C9: the zig-zag transforms used by write_sint32/read_sint32
and write_sint64/read_sint64 are mutually inverse bijections on 32-bit
and 64-bit integers (bit patterns), and the full wire round-trip
through the varint layer returns the original value for both widths
(for sint32 this crosses the 64-bit sign extension in the writer and
the 32-bit truncation in the reader). -/
theorem claim_C9 :
    (∀ n : Nat, n < 2 ^ 32 → zigzag_dec32 (zigzag_enc32 n) = n) ∧
    (∀ m : Nat, m < 2 ^ 32 → zigzag_enc32 (zigzag_dec32 m) = m) ∧
    (∀ n : Nat, n < 2 ^ 64 → zigzag_dec64 (zigzag_enc64 n) = n) ∧
    (∀ m : Nat, m < 2 ^ 64 → zigzag_enc64 (zigzag_dec64 m) = m) ∧
    (∀ (n : Nat) (buf : List Nat), n < 2 ^ 32 → (∀ b ∈ buf, b < 256) →
        (varint_bytes (sext32_u64 (zigzag_enc32 n))).length ≤ buf.length →
        ∃ (out : List Nat) (c : Nat),
          write_sint32 ⟨buf, 0⟩ n = (Except.ok (), ⟨out, c⟩) ∧
          read_sint32 (from_bytes out) out = (Except.ok n, ⟨c, out.length⟩)) ∧
    (∀ (n : Nat) (buf : List Nat), n < 2 ^ 64 → (∀ b ∈ buf, b < 256) →
        (varint_bytes (zigzag_enc64 n)).length ≤ buf.length →
        ∃ (out : List Nat) (c : Nat),
          write_sint64 ⟨buf, 0⟩ n = (Except.ok (), ⟨out, c⟩) ∧
          read_sint64 (from_bytes out) out = (Except.ok n, ⟨c, out.length⟩)) := by
  refine ⟨zz32_dec_enc, zz32_enc_dec, zz64_dec_enc, zz64_enc_dec, ?_, ?_⟩
  · intro n buf hn h256 hlen
    have hz : zigzag_enc32 n < 2 ^ 32 := zz32_lt n hn
    have hE : sext32_u64 (zigzag_enc32 n) < 2 ^ 64 := sext32_lt _ hz
    refine ⟨varint_bytes (sext32_u64 (zigzag_enc32 n)) ++
        buf.drop (varint_bytes (sext32_u64 (zigzag_enc32 n))).length,
      (varint_bytes (sext32_u64 (zigzag_enc32 n))).length, ?_, ?_⟩
    · unfold write_sint32
      have h := write_varint_ok (sext32_u64 (zigzag_enc32 n)) ⟨buf, 0⟩ (by simpa using hlen)
      rw [h]
      unfold splice
      simp
    · have hb : ∀ b ∈ varint_bytes (sext32_u64 (zigzag_enc32 n)) ++
          buf.drop (varint_bytes (sext32_u64 (zigzag_enc32 n))).length, b < 256 := by
        intro b hbb
        rcases List.mem_append.mp hbb with h1 | h2
        · exact vb_mem _ b h1
        · exact h256 b ((List.drop_sublist _ _).mem h2)
      unfold read_sint32 rbind
      have h32 := read_varint32_full (from_bytes (varint_bytes (sext32_u64 (zigzag_enc32 n)) ++
          buf.drop (varint_bytes (sext32_u64 (zigzag_enc32 n))).length))
        (varint_bytes (sext32_u64 (zigzag_enc32 n)) ++
          buf.drop (varint_bytes (sext32_u64 (zigzag_enc32 n))).length) hb
      rw [show (from_bytes (varint_bytes (sext32_u64 (zigzag_enc32 n)) ++
          buf.drop (varint_bytes (sext32_u64 (zigzag_enc32 n))).length)).start = 0 from rfl] at h32
      rw [varint_full_of_bytes _ _ hE] at h32
      rw [h32]
      simp only []
      rw [sext32_mod _ hz, zz32_dec_enc n hn]
      simp [from_bytes]
  · intro n buf hn h256 hlen
    have hz : zigzag_enc64 n < 2 ^ 64 := zz64_lt n hn
    refine ⟨varint_bytes (zigzag_enc64 n) ++
        buf.drop (varint_bytes (zigzag_enc64 n)).length,
      (varint_bytes (zigzag_enc64 n)).length, ?_, ?_⟩
    · unfold write_sint64
      have h := write_varint_ok (zigzag_enc64 n) ⟨buf, 0⟩ (by simpa using hlen)
      rw [h]
      unfold splice
      simp
    · have hb : ∀ b ∈ varint_bytes (zigzag_enc64 n) ++
          buf.drop (varint_bytes (zigzag_enc64 n)).length, b < 256 := by
        intro b hbb
        rcases List.mem_append.mp hbb with h1 | h2
        · exact vb_mem _ b h1
        · exact h256 b ((List.drop_sublist _ _).mem h2)
      unfold read_sint64 rbind
      have h64 := read_varint64_full (from_bytes (varint_bytes (zigzag_enc64 n) ++
          buf.drop (varint_bytes (zigzag_enc64 n)).length))
        (varint_bytes (zigzag_enc64 n) ++
          buf.drop (varint_bytes (zigzag_enc64 n)).length) hb
      rw [show (from_bytes (varint_bytes (zigzag_enc64 n) ++
          buf.drop (varint_bytes (zigzag_enc64 n)).length)).start = 0 from rfl] at h64
      rw [varint_full_of_bytes _ _ hz] at h64
      rw [h64]
      simp only []
      rw [Nat.mod_eq_of_lt hz, zz64_dec_enc n hn]
      simp [from_bytes]

/-- Witness for C9: the sint32 wire round-trip at n = 1 (signed value
+1, encoded as varint 02). -/
theorem claim_C9_witness :
    ∃ (out : List Nat) (c : Nat),
      write_sint32 ⟨[0, 0, 0, 0, 0, 0, 0, 0, 0, 0], 0⟩ 1 = (Except.ok (), ⟨out, c⟩) ∧
      read_sint32 (from_bytes out) out = (Except.ok 1, ⟨c, out.length⟩) :=
  claim_C9.2.2.2.2.1 1 [0, 0, 0, 0, 0, 0, 0, 0, 0, 0] (by norm_num) (by decide)
    (by
      have he : sext32_u64 (zigzag_enc32 1) = 2 := rfl
      rw [he]
      simpa using vb_len_le 10 2 (by omega) (by norm_num))

end Quack
